import Mathlib

/-!
Verification of the emotion core of the kai_core repository: the affect
vector (backend/inference/affect.py), the memory store
(backend/memory/memory_store.py), the lexicon scorer
(backend/api/emotion_weights.py) and the BERTweet emotion fusion engine
(backend/api/journal_api.py).

Modelling conventions: Python floats are rationals; Python dicts are
association lists in insertion order, looked up first-match; the external
VADER sentiment analyzer and the transformer classifiers are opaque
function parameters (collaborators per the spec); regular expressions
that capture word tokens are modelled at whitespace-token granularity.
-/

namespace KaiCore

/-- Association-list lookup, first match wins (Python dict lookup). -/
def alookup {α β : Type} [DecidableEq α] : List (α × β) → α → Option β
  | [], _ => none
  | (k, v) :: rest, key => if k = key then some v else alookup rest key

/-- Python `d.get(key, default)`. -/
def agetD {α β : Type} [DecidableEq α] (l : List (α × β)) (key : α) (d : β) : β :=
  match alookup l key with
  | some v => v
  | none => d

/-- Does `hay` start with `needle`? -/
def startsWithSub : List Char → List Char → Bool
  | _, [] => true
  | [], _ :: _ => false
  | h :: hs, n :: ns => h == n && startsWithSub hs ns

/-- Python `needle in hay` substring test on char lists. -/
def containsSubL (needle : List Char) : List Char → Bool
  | [] => needle.isEmpty
  | h :: hs => startsWithSub (h :: hs) needle || containsSubL needle hs

/-- Python `needle in hay` on strings. -/
def containsSub (needle hay : String) : Bool :=
  containsSubL needle.data hay.data

/-- Python `str.lower()` (ASCII-adequate for the tables involved). -/
def strLower (s : String) : String := ⟨s.data.map Char.toLower⟩

/-- The record returned by VADER's `polarity_scores` (external collaborator,
spec section 6). -/
structure SentScores where
  compound : ℚ
  pos : ℚ
  neg : ℚ
  neu : ℚ
deriving DecidableEq

/-! ## backend/inference/affect.py -/

/-- The `self.vector` dict of `Affect_Vector` (affect.py lines 11-16). -/
structure AffectDict where
  valence : ℚ
  arousal : ℚ
  dominance : ℚ
  trust : ℚ
deriving DecidableEq

/-- The keys of the affect vector dict. -/
inductive Dim
  | valence
  | arousal
  | dominance
  | trust
deriving DecidableEq

/-- Read one dimension of the dict. -/
def AffectDict.getDim (d : AffectDict) : Dim → ℚ
  | .valence => d.valence
  | .arousal => d.arousal
  | .dominance => d.dominance
  | .trust => d.trust

/-- `self.vector[dim] += delta` (affect.py line 56). -/
def AffectDict.addDim (d : AffectDict) : Dim → ℚ → AffectDict
  | .valence, x => { d with valence := d.valence + x }
  | .arousal, x => { d with arousal := d.arousal + x }
  | .dominance, x => { d with dominance := d.dominance + x }
  | .trust, x => { d with trust := d.trust + x }

/-- `max(-1.0, min(1.0, x))` (affect.py line 60). -/
def clamp1 (x : ℚ) : ℚ := max (-1) (min 1 x)

/-- The clamping loop over all four dimensions (affect.py lines 59-60). -/
def AffectDict.clampAll (d : AffectDict) : AffectDict :=
  ⟨clamp1 d.valence, clamp1 d.arousal, clamp1 d.dominance, clamp1 d.trust⟩

/-- An `Affect_Vector` object: the vector dict plus `last_update`. -/
structure Affect_Vector where
  vector : AffectDict
  last_update : ℚ
deriving DecidableEq

/-- `Affect_Vector.__init__` (affect.py lines 10-17): all dimensions zero,
`last_update` set to the current time. -/
def Affect_Vector.init (now : ℚ) : Affect_Vector := ⟨⟨0, 0, 0, 0⟩, now⟩

/-- `Affect_Vector.decay` (affect.py lines 20-26). -/
def Affect_Vector.decay (v : Affect_Vector) (now : ℚ) : Affect_Vector :=
  if now - v.last_update > 86400 then
    { vector := { v.vector with
        valence := v.vector.valence * (9/10),
        trust := v.vector.trust * (9/10) },
      last_update := now }
  else v

/-- The `keyword_modifiers` table (affect.py lines 43-50). -/
def keyword_modifiers : List (String × List (Dim × ℚ)) :=
  [("confess", [(.dominance, -(10/100)), (.trust, 12/100)]),
   ("confession", [(.dominance, -(10/100)), (.trust, 12/100)]),
   ("thank you", [(.valence, 10/100), (.trust, 7/100)]),
   ("appreciate", [(.valence, 10/100), (.trust, 7/100)]),
   ("leave me alone", [(.valence, -(10/100)), (.arousal, -(5/100)), (.trust, -(8/100))]),
   ("goodbye", [(.valence, -(10/100)), (.arousal, -(5/100)), (.trust, -(8/100))])]

/-- Apply one keyword's modification list (inner loop, affect.py lines 55-56). -/
def applyMods (mods : List (Dim × ℚ)) (d : AffectDict) : AffectDict :=
  mods.foldl (fun a m => a.addDim m.1 m.2) d

/-- The keyword-modifier loop (affect.py lines 53-56): every keyword found as
a substring of the lowered text adds its deltas.  Stated over an arbitrary
modifier table; the engine instantiates it with `keyword_modifiers`. -/
def applyKw (lowered : String) (l : List (String × List (Dim × ℚ)))
    (d : AffectDict) : AffectDict :=
  l.foldl (fun a km => if containsSub km.1 lowered then applyMods km.2 a else a) d

/-- `Affect_Vector.update_from_text` (affect.py lines 28-60): decay, overwrite
valence/arousal/trust from the VADER scores of the text, add keyword
modifiers, clamp all dimensions.  The external analyzer is `scorer`. -/
def Affect_Vector.update_from_text (v : Affect_Vector)
    (scorer : String → SentScores) (now : ℚ) (text : String) : Affect_Vector :=
  let lowered := strLower text
  let v1 := v.decay now
  let s := scorer text
  let d0 : AffectDict :=
    { valence := s.compound,
      arousal := max s.pos s.neg,
      dominance := v1.vector.dominance,
      trust := s.pos - s.neg }
  { vector := (applyKw lowered keyword_modifiers d0).clampAll,
    last_update := v1.last_update }

/-- The mutations an `Affect_Vector` undergoes over its lifetime. -/
inductive AffectOp
  | decay (now : ℚ)
  | update (now : ℚ) (text : String)

/-- Run one operation. -/
def applyOp (scorer : String → SentScores) (v : Affect_Vector) : AffectOp → Affect_Vector
  | .decay now => v.decay now
  | .update now text => v.update_from_text scorer now text

/-- Run a sequence of operations from a state. -/
def applyOps (scorer : String → SentScores) (v : Affect_Vector)
    (ops : List AffectOp) : Affect_Vector :=
  ops.foldl (applyOp scorer) v

/-- All four dimensions lie in [-1, 1]. -/
def AffectDict.inRange (d : AffectDict) : Prop :=
  (-1 ≤ d.valence ∧ d.valence ≤ 1) ∧ (-1 ≤ d.arousal ∧ d.arousal ≤ 1) ∧
  (-1 ≤ d.dominance ∧ d.dominance ≤ 1) ∧ (-1 ≤ d.trust ∧ d.trust ≤ 1)

instance (d : AffectDict) : Decidable d.inRange := by
  unfold AffectDict.inRange
  infer_instance

/-- A concrete opaque scorer used for closed counterexample instances. -/
def zeroScorer : String → SentScores := fun _ => ⟨0, 0, 0, 0⟩

/-! ## backend/api/emotion_weights.py -/

/-- The `EMOTION_KEYWORDS` table (emotion_weights.py lines 9-58). -/
def EMOTION_KEYWORDS : List (String × List (String × ℚ)) :=
  [("sadness", [("sad", 6/10), ("depressed", 9/10), ("cry", 8/10), ("tear", 7/10),
                ("heartbroken", 9/10), ("grief", 9/10), ("hurt", 7/10), ("aching", 7/10)]),
   ("loneliness", [("lonely", 9/10), ("alone", 8/10), ("isolated", 8/10),
                   ("ignored", 7/10), ("abandoned", 9/10), ("unseen", 7/10),
                   ("unloved", 8/10)]),
   ("anxiety", [("anxious", 8/10), ("nervous", 6/10), ("panic", 9/10), ("worry", 6/10),
                ("overwhelmed", 7/10), ("stressed", 7/10), ("uneasy", 5/10)]),
   ("emptiness", [("empty", 9/10), ("numb", 8/10), ("hollow", 9/10), ("void", 7/10),
                  ("flat", 5/10), ("disconnected", 7/10)]),
   ("anger", [("angry", 7/10), ("mad", 6/10), ("furious", 9/10), ("rage", 9/10),
              ("pissed", 8/10), ("resentful", 7/10), ("frustrated", 7/10)]),
   ("shame", [("ashamed", 9/10), ("guilty", 8/10), ("worthless", 9/10),
              ("embarrassed", 6/10), ("disgraced", 8/10), ("humiliated", 9/10)]),
   ("fear", [("afraid", 7/10), ("scared", 8/10), ("terrified", 1), ("fear", 6/10),
             ("worried", 5/10), ("hesitant", 4/10)]),
   ("joy", [("happy", 6/10), ("joyful", 8/10), ("grateful", 7/10), ("smiling", 5/10),
            ("laughing", 6/10), ("peaceful", 7/10)]),
   ("hope", [("hopeful", 8/10), ("relieved", 7/10), ("encouraged", 6/10),
             ("uplifted", 6/10), ("believe", 5/10), ("faith", 6/10)]),
   ("love", [("loved", 8/10), ("cared", 6/10), ("held", 7/10), ("safe", 6/10),
             ("cherished", 8/10), ("connected", 7/10)]),
   ("confusion", [("confused", 7/10), ("lost", 8/10), ("unsure", 6/10),
                  ("disoriented", 7/10), ("uncertain", 5/10), ("foggy", 5/10)]),
   ("longing", [("miss", 7/10), ("yearn", 8/10), ("crave", 7/10), ("aching for", 9/10),
                ("wish", 6/10), ("nostalgic", 6/10)])]

/-- Round to two decimals (Python `round(x, 2)`; the table's weights are
exact two-decimal values, for which every rounding convention agrees).
Round-half-up is used as the convention; the claims settled here only use
its monotonicity and its fixing of exact two-decimal grid points. -/
def round2 (x : ℚ) : ℚ := ((⌊x * 100 + 1/2⌋ : ℤ) : ℚ) / 100

/-- The inner accumulation of `get_emotion_weights` (lines 63-66):
`score = max(score, weight)` for every trigger found in the text. -/
def maxMatchWeight (lowered : String) (keywords : List (String × ℚ)) : ℚ :=
  keywords.foldl (fun score kw => if containsSub kw.1 lowered then max score kw.2 else score) 0

/-- The outer loop of `get_emotion_weights` (lines 62-68), over an
arbitrary trigger table. -/
def lexScores (lowered : String) (table : List (String × List (String × ℚ))) :
    List (String × ℚ) :=
  table.foldl
    (fun weights ek =>
      if maxMatchWeight lowered ek.2 > 0
      then weights ++ [(ek.1, round2 (maxMatchWeight lowered ek.2))]
      else weights) []

/-- `get_emotion_weights` (emotion_weights.py lines 59-69). -/
def get_emotion_weights (text : String) : List (String × ℚ) :=
  lexScores (strLower text) EMOTION_KEYWORDS

/-! ## backend/api/journal_api.py — BERTweetEmotionProcessor

The transformer pipelines are external collaborators; a loaded model is an
opaque function from the (preprocessed) text to either `none` (the call
raised) or a list of (label, score) predictions.  Score maps are
insertion-ordered association lists like Python dicts.
-/

abbrev ScoreMap := List (String × ℚ)

abbrev Model := String → Option (List (String × ℚ))

/-- The `emotion_patterns` table (journal_api.py lines 126-163). -/
def emotion_patterns : List (String × List (String × List String)) :=
  [("happy",
    [("direct", ["happy", "joy", "joyful", "excited", "thrilled", "elated",
                 "cheerful", "delighted", "ecstatic", "euphoric", "blissful", "blessed"]),
     ("modern", ["lit", "fire", "amazing", "awesome", "incredible", "perfect",
                 "best day ever"]),
     ("social", ["so happy", "cant even", "literally the best", "living my best life"])]),
   ("sad",
    [("direct", ["sad", "depressed", "down", "blue", "melancholy", "heartbroken",
                 "dejected", "despondent", "gloomy", "devastated"]),
     ("modern", ["dead inside", "broken", "shattered", "crushed", "destroyed"]),
     ("social", ["big sad", "sad vibes", "not okay", "cant deal"])]),
   ("mad",
    [("direct", ["angry", "mad", "furious", "irate", "livid", "enraged",
                 "pissed", "outraged", "incensed"]),
     ("modern", ["heated", "triggered", "done with", "over it", "fed up"]),
     ("social", ["big mad", "so done", "absolutely not", "are you kidding me"])]),
   ("anxious",
    [("direct", ["anxious", "worried", "nervous", "stressed", "panicked",
                 "uneasy", "apprehensive", "tense", "overwhelmed"]),
     ("modern", ["lowkey stressed", "highkey worried", "freaking out", "losing it"]),
     ("social", ["stress levels", "panic mode", "cant handle", "too much"])]),
   ("fear",
    [("direct", ["afraid", "scared", "terrified", "frightened", "fearful",
                 "petrified", "horrified"]),
     ("modern", ["shook", "spooked", "terrifying", "nightmare fuel"]),
     ("social", ["so scared", "actually terrified", "worst fear", "heart stopped"])]),
   ("calm",
    [("direct", ["calm", "peaceful", "relaxed", "serene", "tranquil",
                 "content", "centered", "balanced"]),
     ("modern", ["zen", "chill", "good vibes", "at peace", "grounded"]),
     ("social", ["feeling zen", "totally calm", "inner peace", "so peaceful"])])]

/-- The `intensity_modifiers` table (lines 166-173). -/
def intensity_modifiers : List (String × List String) :=
  [("extreme", ["literally", "absolutely", "completely", "totally", "utterly",
                "beyond", "cant even", "so much", "way too"]),
   ("high", ["really", "very", "super", "hella", "mad", "lowkey", "highkey",
             "pretty", "quite", "really really"]),
   ("moderate", ["kinda", "sorta", "somewhat", "a bit", "a little", "kind of"]),
   ("mild", ["slightly", "barely", "just a touch", "mildly"])]

/-! ### Preprocessing (`_preprocess_social_media_text`, lines 252-321)

Word characters and whitespace are modelled at ASCII granularity, which
covers every table entry involved.
-/

def isWordChar (c : Char) : Bool :=
  (('a' ≤ c && c ≤ 'z') || ('A' ≤ c && c ≤ 'Z') || ('0' ≤ c && c ≤ '9') || c == '_')

def isSpaceChar (c : Char) : Bool :=
  (c == ' ' || c == '\t' || c == '\n' || c == '\r')

/-- Maximal runs of equal characters with their lengths. -/
def splitRuns : List Char → List (Char × Nat)
  | [] => []
  | c :: rest =>
    match splitRuns rest with
    | (c2, n) :: tail => if c = c2 then (c, n + 1) :: tail else (c, 1) :: (c2, n) :: tail
    | [] => [(c, 1)]

/-- `re.sub(r'(.)\1{3,}', r'\1\1', text)` (line 258): every maximal run of
four or more equal characters (the dot does not match a newline) collapses
to two. -/
def collapseRuns (l : List Char) : List Char :=
  ((splitRuns l).map (fun r =>
    if r.1 ≠ '\n' ∧ r.2 ≥ 4 then List.replicate 2 r.1 else List.replicate r.2 r.1)).flatten

/-- Runs of characters satisfying `p`, in order, skipping separators. -/
def splitRunsBy (p : Char → Bool) : List Char → List Char → List (List Char)
  | [], cur => if cur.isEmpty then [] else [cur.reverse]
  | c :: rest, cur =>
    if p c then splitRunsBy p rest (c :: cur)
    else if cur.isEmpty then splitRunsBy p rest []
    else cur.reverse :: splitRunsBy p rest []

/-- Python `str.split()`: maximal runs of non-whitespace. -/
def splitWs (l : List Char) : List (List Char) :=
  splitRunsBy (fun c => !(isSpaceChar c)) l []

/-- The `social_expansions` table (lines 261-285).  The source dict literal
lists the key "periodt" twice; the Python dict keeps the last value,
"absolutely". -/
def social_expansions : List (String × String) :=
  [("ngl", "not gonna lie"), ("tbh", "to be honest"), ("tbf", "to be fair"),
   ("omg", "oh my god"), ("omfg", "oh my f***ing god"), ("wtf", "what the f***"),
   ("lol", "laugh out loud"), ("lmao", "laughing my a** off"),
   ("rofl", "rolling on floor laughing"), ("rn", "right now"), ("af", "as f***"),
   ("fr", "for real"), ("irl", "in real life"), ("lowkey", "somewhat"),
   ("highkey", "really"), ("deadass", "seriously"), ("periodt", "absolutely"),
   ("no cap", "no lie"), ("bet", "okay"), ("say less", "I understand"),
   ("its giving", "it seems like"), ("slay", "amazing")]

/-- `re.sub(r'[^\w\s]', '', word.lower())` (line 293): lowercase, then keep
only word characters and whitespace. -/
def cleanWord (w : List Char) : String :=
  ⟨(w.map Char.toLower).filter (fun c => isWordChar c || isSpaceChar c)⟩

/-- The abbreviation-expansion pass (lines 287-300): expand a token when
its cleaned form is in the table, else keep the original token; rejoin with
single spaces. -/
def expandTokens (l : List Char) : String :=
  String.intercalate " "
    ((splitWs l).map (fun w =>
      match alookup social_expansions (cleanWord w) with
      | some expansion => expansion
      | none => (⟨w⟩ : String)))

/-- The `emoji_text` table (lines 303-316). -/
def emoji_text : List (String × String) :=
  [(":)", "happy"), (":-)", "happy"), (":(", "sad"), (":-(", "sad"),
   (":D", "very happy"), (":-D", "very happy"), (":P", "playful"),
   (":-P", "playful"), (":/", "confused"), (":-/", "confused"),
   (">:(", "angry"), (">:-(", "angry")]

/-- Python `str.replace` on char lists: left-to-right, non-overlapping, the
replacement is not rescanned. -/
def replaceAllL (pat rep : List Char) : List Char → List Char
  | [] => []
  | c :: rest =>
    if h : pat ≠ [] ∧ startsWithSub (c :: rest) pat = true then
      rep ++ replaceAllL pat rep ((c :: rest).drop pat.length)
    else
      c :: replaceAllL pat rep rest
termination_by l => l.length
decreasing_by
  · simp only [List.length_drop, List.length_cons]
    have hp : 0 < pat.length := List.length_pos.mpr h.1
    omega
  · simp only [List.length_cons]
    omega

/-- The emoticon pass (lines 318-319): each emoticon is replaced by its
named emotion padded with spaces. -/
def applyEmoji (l : List Char) : List Char :=
  emoji_text.foldl
    (fun acc er => replaceAllL er.1.data (" ".data ++ er.2.data ++ " ".data) acc) l

/-- `_preprocess_social_media_text` (lines 252-321). -/
def preprocess_social_media_text (text : String) : String :=
  ⟨applyEmoji (expandTokens (collapseRuns text.data)).data⟩

/-! ### Pattern detection (`_pattern_detection`, lines 413-440) -/

/-- The group weights of the if/elif chain (lines 425-430); unknown group
names contribute nothing. -/
def groupWeight (ptype : String) : ℚ :=
  if ptype = "direct" then 1
  else if ptype = "modern" then 9/10
  else if ptype = "social" then 8/10
  else 0

/-- Per-emotion accumulation (lines 418-430): every matched pattern ADDS
its group weight (a sum, unlike the standalone lexicon scorer's max). -/
def patternScore (text : String) (groups : List (String × List String)) : ℚ :=
  groups.foldl (fun score g =>
    g.2.foldl (fun s p => if containsSub p text then s + groupWeight g.1 else s) score) 0

/-- The collection loop (lines 417-433): categories with positive score, in
table order. -/
def rawPatternScores (text : String) : ScoreMap :=
  emotion_patterns.foldl (fun acc eg =>
    if patternScore text eg.2 > 0 then acc ++ [(eg.1, patternScore text eg.2)] else acc) []

/-- `max(emotion_scores.values())`, seeded with 0 (every stored raw score
is positive, so the seed is never the result on a non-empty map). -/
def maxVal (m : ScoreMap) : ℚ := m.foldl (fun acc kv => max acc kv.2) 0

/-- `_pattern_detection` (lines 413-440): sum per category, then divide
every score by the maximum. -/
def pattern_detection (text : String) : ScoreMap :=
  let es := rawPatternScores text
  if es = [] then es else es.map (fun kv => (kv.1, kv.2 / maxVal es))

/-! ### Classifier label mapping and prediction wrappers -/

/-- The BERTweet `emotion_mapping` (lines 329-360).  The source dict
literal lists "disapproval" twice, both mapping to "mad"; the Python dict
holds it once. -/
def emotion_mapping : List (String × String) :=
  [("joy", "happy"), ("optimism", "happy"), ("love", "happy"),
   ("sadness", "sad"), ("pessimism", "sad"), ("grief", "sad"),
   ("anger", "mad"), ("annoyance", "mad"), ("disapproval", "mad"),
   ("fear", "fear"), ("nervousness", "anxious"), ("surprise", "anxious"),
   ("confusion", "anxious"), ("neutral", "calm"), ("approval", "calm"),
   ("relief", "calm"), ("trust", "calm"), ("admiration", "happy"),
   ("excitement", "happy"), ("gratitude", "happy"), ("pride", "happy"),
   ("caring", "happy"), ("curiosity", "calm"), ("desire", "anxious"),
   ("disappointment", "sad"), ("disgust", "mad"), ("embarrassment", "anxious"),
   ("remorse", "sad"), ("realization", "calm")]

/-- The fallback DistilRoBERTa mapping (lines 384-394). -/
def fallback_mapping : List (String × String) :=
  [("joy", "happy"), ("sadness", "sad"), ("anger", "mad"), ("fear", "fear"),
   ("surprise", "anxious"), ("disgust", "mad"), ("love", "happy"),
   ("optimism", "happy"), ("pessimism", "sad")]

/-- `emotion_scores[mapped] = value` for a key already present. -/
def setKey (m : ScoreMap) (k : String) (v : ℚ) : ScoreMap :=
  m.map (fun kv => if kv.1 = k then (kv.1, v) else kv)

/-- The label-collapsing loop (lines 362-371 / 396-405): unmapped labels
fall back to "neutral"; two native labels mapping to one category keep the
maximum. -/
def mapPredictions (mapping : List (String × String)) (preds : List (String × ℚ)) :
    ScoreMap :=
  preds.foldl (fun acc p =>
    let mapped := agetD mapping (strLower p.1) "neutral"
    match alookup acc mapped with
    | some old => setKey acc mapped (max old p.2)
    | none => acc ++ [(mapped, p.2)]) []

/-- `_bertweet_prediction` (lines 323-377): the model call is wrapped in
try/except and an exception yields the empty dict. -/
def bertweet_prediction (f : Model) (text : String) : ScoreMap :=
  match f text with
  | none => []
  | some preds => mapPredictions emotion_mapping preds

/-- `_fallback_prediction` (lines 379-411). -/
def fallback_prediction (f : Model) (text : String) : ScoreMap :=
  match f text with
  | none => []
  | some preds => mapPredictions fallback_mapping preds

/-! ### Fusion (`_combine_predictions`, lines 442-462) -/

def keys (m : ScoreMap) : List String := m.map Prod.fst

/-- `set(bertweet.keys()) | set(pattern.keys())`; Python set order is
unspecified, so any enumeration of the union is faithful — first map's
keys first, then the second map's new keys. -/
def unionKeys (a b : ScoreMap) : List String :=
  keys a ++ (keys b).filter (fun k => decide (k ∉ keys a))

/-- `_combine_predictions` (lines 442-462): an empty source map passes the
other through unchanged; otherwise every union category gets
`bertweet*0.75 + pattern*0.25` with missing scores read as 0. -/
def combine_predictions (bertweet_scores pattern_scores : ScoreMap) : ScoreMap :=
  if bertweet_scores = [] then pattern_scores
  else if pattern_scores = [] then bertweet_scores
  else (unionKeys bertweet_scores pattern_scores).map
    (fun emo => (emo, agetD bertweet_scores emo 0 * (75/100)
      + agetD pattern_scores emo 0 * (25/100)))

/-! ### Negation handling (`_handle_negations`, lines 464-487)

The regex captures `(\w+)` after a negator; this is modelled at
whitespace-token granularity: the captured word is the leading run of word
characters of the token that follows a negator token (or the two-token
negators of the source's extended patterns).
-/

def negators : List String :=
  ["not", "no", "never", "don\x27t", "can\x27t", "won\x27t", "shouldn\x27t"]

def negatorPairs : List (String × String) :=
  [("not", "really"), ("definitely", "not"), ("absolutely", "not")]

/-- The `\w+` capture: leading word characters of the following token. -/
def wordPart (w : List Char) : List Char := w.takeWhile isWordChar

/-- Captured negated words from the token sequence. -/
def negCaptures : List (List Char) → List (List Char)
  | [] => []
  | [_] => []
  | a :: b :: rest =>
    (if negators.contains (⟨a⟩ : String) ∧ wordPart b ≠ [] then [wordPart b] else [])
    ++ (match rest with
        | c :: _ =>
          if negatorPairs.contains ((⟨a⟩ : String), (⟨b⟩ : String)) ∧ wordPart c ≠ []
          then [wordPart c] else []
        | [] => [])
    ++ negCaptures (b :: rest)

/-- The negated-word set of `_handle_negations` (lines 468-478). -/
def negatedWords (text : String) : List String :=
  (negCaptures (splitWs (strLower text).data)).map (fun w => (⟨w⟩ : String))

/-- `emotion_scores[emotion] *= 0.3` on a present key. -/
def mulKey (m : ScoreMap) (k : String) (f : ℚ) : ScoreMap :=
  m.map (fun kv => if kv.1 = k then (kv.1, kv.2 * f) else kv)

/-- The per-emotion suppression loop (lines 481-487): one multiplication by
0.3 for EACH pattern group containing a negated word. -/
def suppressGroups (negs : List String) (emo : String)
    (groups : List (String × List String)) (m : ScoreMap) : ScoreMap :=
  groups.foldl (fun acc g =>
    if g.2.any (fun w => negs.contains w) then
      if emo ∈ keys acc then mulKey acc emo (3/10) else acc
    else acc) m

/-- `_handle_negations` (lines 464-487). -/
def handle_negations (text : String) (m : ScoreMap) : ScoreMap :=
  emotion_patterns.foldl (fun acc eg => suppressGroups (negatedWords text) eg.1 eg.2 acc) m

/-! ### Primary emotion, intensity, mood (`lines 489-584`) -/

/-- Python `max(d, key=d.get)`: the first key attaining the maximum value,
paired with that value. -/
def argmaxKey (m : ScoreMap) : Option (String × ℚ) :=
  m.foldl (fun best kv =>
    match best with
    | none => some kv
    | some b => if kv.2 > b.2 then some kv else some b) none

/-- `_get_primary_emotion` (lines 489-509). -/
def get_primary_emotion (m : ScoreMap) (vs : SentScores) : String × ℚ :=
  match argmaxKey m with
  | none =>
    if vs.compound ≥ 3/10 then ("happy", |vs.compound|)
    else if vs.compound ≤ -(3/10) then ("sad", |vs.compound|)
    else ("neutral", 1/2)
  | some (emo, conf) =>
    if conf < 2/10 then ("neutral", conf) else (emo, conf)

/-- The tier boosts of the if/elif chain (lines 525-532). -/
def levelBoost (level : String) : ℚ :=
  if level = "extreme" then 4/10
  else if level = "high" then 3/10
  else if level = "moderate" then 2/10
  else if level = "mild" then 1/10
  else 0

/-- The modifier scan (lines 521-532): the single highest matching tier
(a running max, not a sum). -/
def intensityBoost (lowered : String) : ℚ :=
  intensity_modifiers.foldl (fun b lm =>
    lm.2.foldl (fun b2 modw => if containsSub modw lowered then max b2 (levelBoost lm.1) else b2) b) 0

/-- The `modern_intensity` phrase list (lines 547-550). -/
def modern_intensity : List String :=
  ["literally", "actually", "honestly", "seriously", "genuinely",
   "cant even", "so much", "way too", "hella", "mad", "deadass"]

/-- `\b[A-Z]{2,}\b` matches: maximal word-character runs that are at least
two characters and all uppercase letters. -/
def capsCount (text : String) : ℕ :=
  (splitRunsBy isWordChar text.data []).countP
    (fun r => decide (r.length ≥ 2) && r.all (fun c => 'A' ≤ c && c ≤ 'Z'))

/-- `re.findall(r'(.)\1{2,}', text.lower())` match count: maximal runs of
three or more equal characters (the dot does not match a newline). -/
def repeatCount (lowered : String) : ℕ :=
  (splitRuns lowered.data).countP (fun r => decide (r.1 ≠ '\n') && decide (r.2 ≥ 3))

/-- `_calculate_modern_intensity` (lines 511-556). -/
def calculate_modern_intensity (text : String) (vs : SentScores) : ℚ :=
  let lowered := strLower text
  let base := |vs.compound|
  let iboost := intensityBoost lowered
  let exclaim := min (4/10) (((text.data.count '!' : ℕ) : ℚ) * (15/100))
  let quest := min (2/10) (((text.data.count '?' : ℕ) : ℚ) * (10/100))
  let caps := min (3/10) (((capsCount text : ℕ) : ℚ) * (15/100))
  let reps := min (2/10) (((repeatCount lowered : ℕ) : ℚ) * (10/100))
  let modern := min (2/10) (((modern_intensity.countP (fun p => containsSub p lowered) : ℕ) : ℚ) * (5/100))
  max (1/10) (min 1 (base + iboost + exclaim + quest + caps + reps + modern))

/-- `_get_mood_category` (lines 558-584). -/
def get_mood_category (emotion : String) (intensity compound : ℚ) : String :=
  if ["happy", "calm"].contains emotion then
    if intensity ≥ 7/10 then "very_positive"
    else if intensity ≥ 4/10 then "positive"
    else "neutral"
  else if ["sad", "mad", "anxious", "fear"].contains emotion then
    if intensity ≥ 7/10 then "very_negative"
    else if intensity ≥ 4/10 then "negative"
    else "neutral"
  else
    if compound ≥ 3/10 then "positive"
    else if compound ≤ -(3/10) then "negative"
    else "neutral"

/-! ### `analyze_journal_entry` (lines 205-250) -/

structure AnalysisResult where
  primary_emotion : String
  intensity : ℚ
  confidence : ℚ
  emotion_scores : ScoreMap
  sentiment_scores : SentScores
  mood_category : String
  analysis_timestamp : String
  analysis_method : String
deriving DecidableEq

/-- The loaded classifier pipelines (line 218 / 220 truthiness). -/
structure Models where
  bertweet_model : Option Model
  fallback_model : Option Model

/-- `analyze_journal_entry` (lines 205-250).  The VADER analyzer and the
wall-clock timestamp are external parameters. -/
def analyze_journal_entry (m : Models) (vader : String → SentScores)
    (nowStr : String) (text : String) : AnalysisResult :=
  let processed_text := preprocess_social_media_text text
  let vader_scores := vader text
  let bertweet_emotions :=
    match m.bertweet_model with
    | some f => bertweet_prediction f processed_text
    | none =>
      match m.fallback_model with
      | some f => fallback_prediction f processed_text
      | none => []
  let pattern_emotions := pattern_detection (strLower text)
  let final_emotions := handle_negations text
    (combine_predictions bertweet_emotions pattern_emotions)
  let pc := get_primary_emotion final_emotions vader_scores
  let intensity := calculate_modern_intensity text vader_scores
  { primary_emotion := pc.1,
    intensity := round2 intensity,
    confidence := round2 pc.2,
    emotion_scores := final_emotions.map (fun kv => (kv.1, round2 kv.2)),
    sentiment_scores := vader_scores,
    mood_category := get_mood_category pc.1 intensity vader_scores.compound,
    analysis_timestamp := nowStr,
    analysis_method :=
      if m.bertweet_model.isSome then "bertweet"
      else if m.fallback_model.isSome then "fallback_distilroberta"
      else "pattern_only" }

/-- The claim's scoring rule, stated from the spec's words: a category's
raw score is the MAXIMUM weight among its triggers found as substrings of
the lowercased text (for the engine's pattern stage a trigger's weight is
its group's weight).  Used to exhibit the divergence of
`_pattern_detection` from this rule. -/
def patternMaxRule (text : String) (groups : List (String × List String)) : ℚ :=
  groups.foldl (fun score g =>
    g.2.foldl (fun s p => if containsSub p text then max s (groupWeight g.1) else s) score) 0

/-- The number of pattern groups of one table row that contain a captured
negated word. -/
def groupsHit (negs : List String) (groups : List (String × List String)) : ℕ :=
  groups.countP (fun g => g.2.any (fun w => negs.contains w))

/-- The total number of 0.3-multiplications `_handle_negations` applies to
one category: one per pattern group containing a negated word, summed over
table rows naming that category. -/
def negPowAux (negs : List String) :
    List (String × List (String × List String)) → String → ℕ
  | [], _ => 0
  | eg :: rest, key =>
    (if eg.1 = key then groupsHit negs eg.2 else 0) + negPowAux negs rest key

-- C7: intensity and confidence bounds

/-- All scores of a map lie in [0, 1]. -/
def allVals01 (m : ScoreMap) : Prop := ∀ kv ∈ m, 0 ≤ kv.2 ∧ kv.2 ≤ 1

-- C10: degraded classifier

/-- A loaded model whose every call raises. -/
def failingModel : Model := fun _ => none

/-- The total delta a modification list contributes to one dimension. -/
def modSum : List (Dim × ℚ) → Dim → ℚ
  | [], _ => 0
  | m :: rest, dim => (if m.1 = dim then m.2 else 0) + modSum rest dim

/-- The total delta the keyword loop contributes to one dimension; it
depends only on the lowered text, not on the incoming vector. -/
def kwSum (low : String) : List (String × List (Dim × ℚ)) → Dim → ℚ
  | [], _ => 0
  | km :: rest, dim =>
      (if containsSub km.1 low then modSum km.2 dim else 0) + kwSum low rest dim

/-! ## backend/memory/memory_store.py -/

/-- One entry dict as built by `Memory_Store.save` (memory_store.py lines
46-52). -/
structure MemEntry where
  timestamp : String
  speaker : String
  message : String
  emotion : String
  tags : List String
deriving DecidableEq

/-- The `Memory_Store.sessions` table: session_id → chronological entries. -/
structure Memory_Store where
  sessions : List (String × List MemEntry)
deriving DecidableEq

/-- `self.sessions.get(session_id, [])` (line 63). -/
def Memory_Store.records (st : Memory_Store) (sid : String) : List MemEntry :=
  agetD st.sessions sid []

/-- Python truthiness of the speaker filter (line 67): `if speaker and
entry["speaker"] != speaker: continue` — a None or empty-string speaker
disables the filter. -/
def speakerPass (speaker : Option String) (e : MemEntry) : Bool :=
  match speaker with
  | none => true
  | some s => if s = "" then true else e.speaker == s

/-- The tag filter (line 69): `if tag_filter and not any(t in entry["tags"]
for t in tag_filter): continue` — an absent or empty filter passes
everything, otherwise the entry must share at least one tag. -/
def tagPass (tf : Option (List String)) (e : MemEntry) : Bool :=
  match tf with
  | none => true
  | some ts => if ts = [] then true else ts.any (fun t => e.tags.contains t)

def entryPass (speaker : Option String) (tf : Option (List String))
    (e : MemEntry) : Bool :=
  speakerPass speaker e && tagPass tf e

/-- The scan loop of `get_recent` (lines 66-73): walk the reversed records,
collect passing entries, break as soon as `len(out) == limit`. -/
def scanLoop (limit : Int) (speaker : Option String) (tf : Option (List String)) :
    List MemEntry → List MemEntry → List MemEntry
  | [], out => out
  | e :: rest, out =>
    if entryPass speaker tf e then
      if ((out ++ [e]).length : Int) = limit then out ++ [e]
      else scanLoop limit speaker tf rest (out ++ [e])
    else scanLoop limit speaker tf rest out

/-- `Memory_Store.get_recent` (lines 56-74). -/
def Memory_Store.get_recent (st : Memory_Store) (limit : Int) (sid : String)
    (speaker : Option String) (tf : Option (List String)) : List MemEntry :=
  (scanLoop limit speaker tf (st.records sid).reverse []).reverse

/-!
### Persistence round trip (memory_store.py `_persist` / `_load`)

`_persist` (lines 23-25) writes `self.sessions` as JSON; `_load` (lines
27-33) parses it back, treating a top-level list as the legacy
single-session format under key "default" and a top-level object as the
sessions table.  The JSON text encoding itself is the standard library's
(external); the model works on the JSON value tree the two sides exchange.
-/

/-- The JSON value fragment exchanged by `_persist`/`_load`. -/
inductive Json where
  | str : String → Json
  | arr : List Json → Json
  | obj : List (String × Json) → Json

/-- The JSON image of one entry dict (key order as built by `save`,
lines 46-52; Python dicts preserve insertion order). -/
def encodeEntry (e : MemEntry) : Json :=
  .obj [("timestamp", .str e.timestamp), ("speaker", .str e.speaker),
        ("message", .str e.message), ("emotion", .str e.emotion),
        ("tags", .arr (e.tags.map .str))]

/-- `Memory_Store._persist` (lines 23-25): `json.dump(self.sessions, f)`. -/
def Memory_Store.persistJson (st : Memory_Store) : Json :=
  .obj (st.sessions.map (fun kv => (kv.1, .arr (kv.2.map encodeEntry))))

def decodeStrList : List Json → Option (List String)
  | [] => some []
  | .str s :: rest =>
    match decodeStrList rest with
    | some l => some (s :: l)
    | none => none
  | _ => none

/-- Rebuild one entry dict from its JSON image. -/
def decodeEntry : Json → Option MemEntry
  | .obj [("timestamp", .str ts), ("speaker", .str sp), ("message", .str ms),
          ("emotion", .str em), ("tags", .arr tj)] =>
    match decodeStrList tj with
    | some tags => some ⟨ts, sp, ms, em, tags⟩
    | none => none
  | _ => none

def decodeEntryList : List Json → Option (List MemEntry)
  | [] => some []
  | j :: rest =>
    match decodeEntry j, decodeEntryList rest with
    | some e, some l => some (e :: l)
    | _, _ => none

def decodeSessions : List (String × Json) → Option (List (String × List MemEntry))
  | [] => some []
  | (k, .arr js) :: rest =>
    match decodeEntryList js, decodeSessions rest with
    | some l, some s => some ((k, l) :: s)
    | _, _ => none
  | _ => none

/-- `Memory_Store._load` (lines 27-33): a top-level list becomes the
single session "default", a top-level object becomes the sessions table. -/
def loadJson : Json → Option Memory_Store
  | .arr items =>
    match decodeEntryList items with
    | some l => some ⟨[("default", l)]⟩
    | none => none
  | .obj kvs =>
    match decodeSessions kvs with
    | some s => some ⟨s⟩
    | none => none
  | _ => none

/-!
### Object identity of the affect vector dict (heap model)

`Affect_Vector.get` (affect.py lines 64-65) is `return self.vector`: it
returns the stored dict object itself, not a copy.  To state what that
means for callers, Python object identity is modelled explicitly: vector
dicts live on a heap addressed by references, `Affect_State.states` maps a
(session_id, persona) key to the reference of that pair's vector dict, and
a caller mutating the dict returned by `get_vector` writes through the
returned reference.
-/

abbrev VecRef := Nat

structure AffectHeap where
  next : Nat
  cells : List (VecRef × AffectDict)

def AffectHeap.read (h : AffectHeap) (r : VecRef) : Option AffectDict :=
  alookup h.cells r

/-- A caller assigning into a dict it holds a reference to. -/
def AffectHeap.write (h : AffectHeap) (r : VecRef) (d : AffectDict) : AffectHeap :=
  ⟨h.next, h.cells.map (fun e => if e.1 = r then (e.1, d) else e)⟩

/-- The `Affect_State` registry: `self.states` maps (session_id, persona)
to the (reference of the) vector object (affect.py lines 79-80). -/
structure Affect_StateH where
  states : List ((String × String) × VecRef)

/-- `Affect_State.get_vector` (affect.py lines 86-88) composed with
`Affect_Vector.get` (lines 64-65): `self.states` is a defaultdict, so a
missing key allocates a fresh zero vector; the returned value is the stored
reference itself (`return self.vector`), not a copy. -/
def Affect_StateH.get_vector (st : Affect_StateH) (h : AffectHeap)
    (sid persona : String) : VecRef × Affect_StateH × AffectHeap :=
  match alookup st.states (sid, persona) with
  | some r => (r, st, h)
  | none =>
      (h.next, ⟨st.states ++ [((sid, persona), h.next)]⟩,
       ⟨h.next + 1, h.cells ++ [(h.next, ⟨0, 0, 0, 0⟩)]⟩)

/-! ## Verification -/

-- Basic clamp lemmas

theorem clamp1_mem (x : ℚ) : -1 ≤ clamp1 x ∧ clamp1 x ≤ 1 := by
  unfold clamp1
  constructor
  · exact le_max_left _ _
  · exact max_le (by norm_num) (min_le_left _ _)

theorem clamp1_idem (x : ℚ) : clamp1 (clamp1 x) = clamp1 x := by
  unfold clamp1
  rcases le_total x 1 with h | h
  · rcases le_total (-1) x with h' | h'
    · rw [min_eq_right h, max_eq_right h', min_eq_right h, max_eq_right h']
    · rw [min_eq_right h, max_eq_left h']
      norm_num
  · rw [min_eq_left h]
    norm_num

theorem clampAll_inRange (d : AffectDict) : d.clampAll.inRange := by
  unfold AffectDict.clampAll AffectDict.inRange
  exact ⟨clamp1_mem _, clamp1_mem _, clamp1_mem _, clamp1_mem _⟩

theorem decay_inRange (v : Affect_Vector) (now : ℚ) (h : v.vector.inRange) :
    (v.decay now).vector.inRange := by
  unfold Affect_Vector.decay
  split
  · obtain ⟨⟨hv1, hv2⟩, ha, hd, ⟨ht1, ht2⟩⟩ := h
    refine ⟨⟨by linarith, by linarith⟩, ha, hd, ⟨by linarith, by linarith⟩⟩
  · exact h

theorem applyOp_inRange (scorer : String → SentScores) (v : Affect_Vector)
    (op : AffectOp) (h : v.vector.inRange) : (applyOp scorer v op).vector.inRange := by
  cases op with
  | decay now => exact decay_inRange v now h
  | update now text => exact clampAll_inRange _

theorem applyOps_inRange (scorer : String → SentScores) (v : Affect_Vector)
    (ops : List AffectOp) (h : v.vector.inRange) :
    (applyOps scorer v ops).vector.inRange := by
  unfold applyOps
  induction ops generalizing v with
  | nil => exact h
  | cons op rest ih =>
    exact ih _ (applyOp_inRange scorer v op h)

-- Generic association-list lemmas

theorem alookup_eq_none_iff {α β : Type} [DecidableEq α] (l : List (α × β)) (k : α) :
    alookup l k = none ↔ k ∉ l.map Prod.fst := by
  induction l with
  | nil => simp [alookup]
  | cons e rest ih =>
    obtain ⟨a, b⟩ := e
    by_cases ha : a = k
    · subst ha
      simp [alookup]
    · simp only [alookup, if_neg ha, List.map_cons, List.mem_cons, ih]
      constructor
      · rintro h (h1 | h2)
        · exact ha h1.symm
        · exact h h2
      · intro h
        exact fun h2 => h (Or.inr h2)

theorem alookup_mem {α β : Type} [DecidableEq α] (l : List (α × β)) (k : α) (v : β)
    (h : alookup l k = some v) : (k, v) ∈ l := by
  induction l with
  | nil => simp [alookup] at h
  | cons e rest ih =>
    obtain ⟨a, b⟩ := e
    by_cases ha : a = k
    · subst ha
      have h2 : alookup ((a, b) :: rest) a = some b := by
        show (if a = a then some b else alookup rest a) = some b
        rw [if_pos rfl]
      rw [h2, Option.some.injEq] at h
      subst h
      exact List.mem_cons_self _ _
    · simp only [alookup, if_neg ha] at h
      exact List.mem_cons_of_mem _ (ih h)

theorem alookup_map_keys (ks : List String) (g : String → ℚ) (k : String) :
    alookup (ks.map (fun e => (e, g e))) k
      = if k ∈ ks then some (g k) else none := by
  induction ks with
  | nil => simp [alookup]
  | cons a rest ih =>
    by_cases ha : a = k
    · subst ha
      simp [alookup, ih]
    · have h1 : alookup ((a, g a) :: rest.map (fun e => (e, g e))) k
          = alookup (rest.map (fun e => (e, g e))) k := by
        show (if a = k then some (g a) else _) = _
        rw [if_neg ha]
      rw [List.map_cons, h1, ih]
      by_cases hk : k ∈ rest
      · rw [if_pos hk, if_pos (List.mem_cons_of_mem _ hk)]
      · rw [if_neg hk, if_neg ?_]
        intro hmem
        rcases List.mem_cons.mp hmem with h | h
        · exact ha h.symm
        · exact hk h

theorem agetD_of_alookup {α β : Type} [DecidableEq α] (l : List (α × β)) (k : α)
    (d : β) : agetD l k d = (alookup l k).getD d := by
  unfold agetD
  cases alookup l k <;> rfl

-- C2: fusion

theorem mem_unionKeys (a b : ScoreMap) (k : String) :
    k ∈ unionKeys a b ↔ k ∈ keys a ∨ k ∈ keys b := by
  unfold unionKeys
  rw [List.mem_append, List.mem_filter]
  constructor
  · rintro (h | ⟨h, _⟩)
    · exact Or.inl h
    · exact Or.inr h
  · rintro (h | h)
    · exact Or.inl h
    · by_cases ha : k ∈ keys a
      · exact Or.inl ha
      · exact Or.inr ⟨h, by simpa using ha⟩

/-- C2 counterexample: with both score maps non-empty, a category present
only in the classifier map is scaled by 0.75, not used unscaled: fusing
classifier {happy: 0.8} with pattern {sad: 1} gives happy 0.6 ≠ 0.8. -/
theorem C2_counterexample :
    alookup (combine_predictions [("happy", 8/10)] [("sad", 1)]) "happy"
      = some (6/10) ∧ ((6/10 : ℚ) ≠ 8/10) := by
  constructor
  · have h1 : combine_predictions [("happy", 8/10)] [("sad", 1)]
        = (unionKeys [("happy", 8/10)] [("sad", 1)]).map
          (fun emo => (emo, agetD [("happy", (8:ℚ)/10)] emo 0 * (75/100)
            + agetD [("sad", (1:ℚ))] emo 0 * (25/100))) := by
      unfold combine_predictions
      rw [if_neg (by simp), if_neg (by simp)]
    rw [h1, alookup_map_keys]
    rw [if_pos (by rw [mem_unionKeys]; left; simp [keys])]
    have h2 : agetD [("happy", (8:ℚ)/10)] "happy" 0 = 8/10 := rfl
    have h3 : agetD [("sad", (1:ℚ))] "happy" 0 = 0 := rfl
    rw [h2, h3]
    norm_num
  · norm_num

/-- C2 amended: an empty source map passes the other map through
unchanged (unscaled); when both maps are non-empty, a category present in
both fuses as classifier*0.75 + lexicon*0.25, a category present in
exactly one is scaled by that source's weight (0.75 for classifier, 0.25
for lexicon/pattern), and a category absent from both is absent from the
fused map. -/
theorem C2_fusion_amended (b p : ScoreMap) (emo : String) :
    combine_predictions [] p = p ∧
    combine_predictions b [] = b ∧
    (b ≠ [] → p ≠ [] →
      alookup (combine_predictions b p) emo
        = match alookup b emo, alookup p emo with
          | some bs, some ps => some (bs * (75/100) + ps * (25/100))
          | some bs, none => some (bs * (75/100))
          | none, some ps => some (ps * (25/100))
          | none, none => none) := by
  refine ⟨rfl, ?_, ?_⟩
  · unfold combine_predictions
    by_cases hb : b = []
    · subst hb
      rfl
    · rw [if_neg hb, if_pos rfl]
  · intro hb hp
    unfold combine_predictions
    rw [if_neg hb, if_neg hp, alookup_map_keys]
    rw [agetD_of_alookup, agetD_of_alookup]
    by_cases hbk : emo ∈ keys b
    · have hsome : ∃ bs, alookup b emo = some bs := by
        rcases halt : alookup b emo with _ | bs
        · exact absurd ((alookup_eq_none_iff b emo).mp halt) (by simpa [keys] using hbk)
        · exact ⟨bs, rfl⟩
      obtain ⟨bs, hbs⟩ := hsome
      rw [if_pos (by rw [mem_unionKeys]; exact Or.inl hbk), hbs]
      rcases hps : alookup p emo with _ | ps
      · simp only [Option.getD]
        ring_nf
      · simp only [Option.getD]
    · have hbnone : alookup b emo = none := by
        rw [alookup_eq_none_iff]
        simpa [keys] using hbk
      rw [hbnone]
      by_cases hpk : emo ∈ keys p
      · have hsome : ∃ ps, alookup p emo = some ps := by
          rcases halt : alookup p emo with _ | ps
          · exact absurd ((alookup_eq_none_iff p emo).mp halt) (by simpa [keys] using hpk)
          · exact ⟨ps, rfl⟩
        obtain ⟨ps, hps⟩ := hsome
        rw [if_pos (by rw [mem_unionKeys]; exact Or.inr hpk), hps]
        simp only [Option.getD]
        ring_nf
      · have hpnone : alookup p emo = none := by
          rw [alookup_eq_none_iff]
          simpa [keys] using hpk
        rw [hpnone]
        rw [if_neg ?_]
        rw [mem_unionKeys]
        rintro (h | h)
        · exact hbk h
        · exact hpk h

/-- C2 witness: a closed instance of the amended fusion law. -/
theorem C2_fusion_amended_witness :
    alookup (combine_predictions [("happy", 8/10)] [("sad", 1)]) "happy"
      = some ((8/10 : ℚ) * (75/100)) :=
  let h := (C2_fusion_amended [("happy", 8/10)] [("sad", 1)] "happy").2.2
    (by simp) (by simp)
  by
    rw [h]
    rfl

-- C9: lexicon scoring

theorem mmw_fold_ge_init (lowered : String) (kws : List (String × ℚ)) (init : ℚ) :
    init ≤ kws.foldl
      (fun score kw => if containsSub kw.1 lowered then max score kw.2 else score) init := by
  induction kws generalizing init with
  | nil => exact le_refl _
  | cons kw rest ih =>
    rw [List.foldl_cons]
    refine le_trans ?_ (ih _)
    by_cases hc : containsSub kw.1 lowered = true
    · rw [if_pos hc]
      exact le_max_left _ _
    · rw [if_neg hc]

theorem mmw_fold_matched_le (lowered : String) (kw : String × ℚ)
    (hmatch : containsSub kw.1 lowered = true) :
    ∀ (kws : List (String × ℚ)), kw ∈ kws → ∀ init : ℚ,
      kw.2 ≤ kws.foldl
        (fun score kw => if containsSub kw.1 lowered then max score kw.2 else score) init := by
  intro kws
  induction kws with
  | nil =>
    intro h
    cases h
  | cons a rest ih =>
    intro hmem init
    rw [List.foldl_cons]
    rcases List.mem_cons.mp hmem with h | h
    · subst h
      refine le_trans ?_ (mmw_fold_ge_init lowered rest _)
      rw [if_pos hmatch]
      exact le_max_right _ _
    · exact ih h _

theorem mmw_fold_attain (lowered : String) (kws : List (String × ℚ)) :
    ∀ init : ℚ,
      kws.foldl (fun score kw => if containsSub kw.1 lowered then max score kw.2 else score) init
          = init ∨
      ∃ kw ∈ kws, containsSub kw.1 lowered = true ∧
        kws.foldl (fun score kw => if containsSub kw.1 lowered then max score kw.2 else score) init
          = kw.2 := by
  induction kws with
  | nil => exact fun init => Or.inl rfl
  | cons a rest ih =>
    intro init
    rw [List.foldl_cons]
    by_cases hc : containsSub a.1 lowered = true
    · rw [if_pos hc]
      rcases ih (max init a.2) with h | ⟨kw, hmem, hm, heq⟩
      · rcases max_choice init a.2 with hmax | hmax
        · exact Or.inl (h.trans hmax)
        · exact Or.inr ⟨a, List.mem_cons_self _ _, hc, h.trans hmax⟩
      · exact Or.inr ⟨kw, List.mem_cons_of_mem _ hmem, hm, heq⟩
    · rw [if_neg hc]
      rcases ih init with h | ⟨kw, hmem, hm, heq⟩
      · exact Or.inl h
      · exact Or.inr ⟨kw, List.mem_cons_of_mem _ hmem, hm, heq⟩

theorem lexFold_acc (lowered : String) (table : List (String × List (String × ℚ)))
    (acc : List (String × ℚ)) :
    table.foldl
      (fun weights ek =>
        if maxMatchWeight lowered ek.2 > 0
        then weights ++ [(ek.1, round2 (maxMatchWeight lowered ek.2))] else weights) acc
      = acc ++ lexScores lowered table := by
  induction table generalizing acc with
  | nil => simp [lexScores]
  | cons ek rest ih =>
    rw [List.foldl_cons]
    rw [ih]
    have hrhs : lexScores lowered (ek :: rest)
        = (if maxMatchWeight lowered ek.2 > 0
           then [] ++ [(ek.1, round2 (maxMatchWeight lowered ek.2))] else ([] : List (String × ℚ)))
          ++ lexScores lowered rest := by
      unfold lexScores
      rw [List.foldl_cons]
      rw [ih]
      rfl
    rw [hrhs]
    by_cases hc : maxMatchWeight lowered ek.2 > 0
    · rw [if_pos hc, if_pos hc]
      simp
    · rw [if_neg hc, if_neg hc]
      simp

theorem lexScores_cons (lowered : String) (ek : String × List (String × ℚ))
    (rest : List (String × List (String × ℚ))) :
    lexScores lowered (ek :: rest)
      = (if maxMatchWeight lowered ek.2 > 0
         then [(ek.1, round2 (maxMatchWeight lowered ek.2))] else [])
        ++ lexScores lowered rest := by
  unfold lexScores
  rw [List.foldl_cons, lexFold_acc]
  by_cases hc : maxMatchWeight lowered ek.2 > 0
  · rw [if_pos hc, if_pos hc]
    rfl
  · rw [if_neg hc, if_neg hc]
    rfl

theorem mem_keys_lexScores (lowered : String) (table : List (String × List (String × ℚ)))
    (k : String) (h : k ∈ (lexScores lowered table).map Prod.fst) :
    k ∈ table.map Prod.fst := by
  induction table with
  | nil => simpa [lexScores] using h
  | cons ek rest ih =>
    rw [lexScores_cons, List.map_append, List.mem_append] at h
    rcases h with h | h
    · rw [List.map_cons, List.mem_cons]
      left
      by_cases hc : maxMatchWeight lowered ek.2 > 0
      · rw [if_pos hc] at h
        simpa using h
      · rw [if_neg hc] at h
        simp at h
    · exact List.mem_cons_of_mem _ (ih h)

theorem alookup_lexScores (lowered : String)
    (table : List (String × List (String × ℚ))) (emo : String)
    (hnd : (table.map Prod.fst).Nodup) :
    alookup (lexScores lowered table) emo
      = match alookup table emo with
        | some kws =>
          if maxMatchWeight lowered kws > 0
          then some (round2 (maxMatchWeight lowered kws)) else none
        | none => none := by
  induction table with
  | nil => rfl
  | cons ek rest ih =>
    obtain ⟨name, kws⟩ := ek
    rw [List.map_cons, List.nodup_cons] at hnd
    rw [lexScores_cons]
    by_cases he : name = emo
    · subst he
      have hrhs : alookup ((name, kws) :: rest) name = some kws := by
        show (if name = name then some kws else _) = some kws
        rw [if_pos rfl]
      rw [hrhs]
      have hm : (match some kws with
          | some kws =>
            if maxMatchWeight lowered kws > 0
            then some (round2 (maxMatchWeight lowered kws)) else none
          | none => (none : Option ℚ))
          = if maxMatchWeight lowered kws > 0
            then some (round2 (maxMatchWeight lowered kws)) else none := rfl
      rw [hm]
      by_cases hs : maxMatchWeight lowered kws > 0
      · rw [if_pos hs, if_pos hs]
        show (if name = name then some (round2 (maxMatchWeight lowered kws)) else _)
          = some (round2 (maxMatchWeight lowered kws))
        rw [if_pos rfl]
      · rw [if_neg hs, if_neg hs, List.nil_append]
        rw [alookup_eq_none_iff]
        intro hmem
        exact hnd.1 (mem_keys_lexScores lowered rest name hmem)
    · have hrhs : alookup ((name, kws) :: rest) emo = alookup rest emo := by
        show (if name = emo then some kws else _) = _
        rw [if_neg he]
      rw [hrhs]
      by_cases hs : maxMatchWeight lowered kws > 0
      · rw [if_pos hs]
        have hstep : alookup ((name, round2 (maxMatchWeight lowered kws)) :: lexScores lowered rest) emo
            = alookup (lexScores lowered rest) emo := by
          show (if name = emo then _ else _) = _
          rw [if_neg he]
        rw [List.singleton_append, hstep]
        exact ih hnd.2
      · rw [if_neg hs, List.nil_append]
        exact ih hnd.2

/-- C9 counterexample: on "happy lit sad" the engine's pattern stage
assigns sad the score 10/19 (sum 1.9 for happy and 1.0 for sad, then
division by the maximum 1.9), while the claim's max-weight rule gives sad
exactly 1.0 — the stage sums and normalizes rather than taking the
maximum matched weight. -/
theorem C9_counterexample :
    alookup (pattern_detection "happy lit sad") "sad" = some (10/19) ∧
    patternMaxRule "happy lit sad" (agetD emotion_patterns "sad" []) = 1 ∧
    ((10/19 : ℚ) ≠ 1) := by
  have hraw : rawPatternScores "happy lit sad" = [("happy", 19/10), ("sad", 1)] := by
    norm_num +decide [rawPatternScores, patternScore, emotion_patterns, groupWeight,
      List.foldl_cons, List.foldl_nil]
  refine ⟨?_, ?_, by norm_num⟩
  · have hmax : maxVal [("happy", (19:ℚ)/10), ("sad", 1)] = 19/10 := by
      norm_num [maxVal, List.foldl_cons, List.foldl_nil, max_def]
    unfold pattern_detection
    rw [hraw, if_neg (by simp), hmax]
    have h1 : ("happy" = "sad") = False := by simp
    simp only [List.map_cons, List.map_nil, alookup, h1, if_false, if_pos rfl]
    norm_num
  · norm_num +decide [patternMaxRule, agetD, alookup, emotion_patterns, groupWeight,
      List.foldl_cons, List.foldl_nil, max_def]

/-- C9 amended: the standalone lexicon scorer `get_emotion_weights` does
follow the claim's rule — a category is present iff some trigger matches,
with score the maximum matched weight (rounded to two decimals), every
matched trigger's weight is dominated by it and the score is attained by a
matched trigger; the fusion engine's pattern stage instead sums group
weights and normalizes (see the counterexample). -/
theorem C9_lexicon_max_amended (text emo : String) :
    (alookup (get_emotion_weights text) emo
      = match alookup EMOTION_KEYWORDS emo with
        | some kws =>
          if maxMatchWeight (strLower text) kws > 0
          then some (round2 (maxMatchWeight (strLower text) kws)) else none
        | none => none) ∧
    (∀ kw ∈ agetD EMOTION_KEYWORDS emo [], containsSub kw.1 (strLower text) = true →
      kw.2 ≤ maxMatchWeight (strLower text) (agetD EMOTION_KEYWORDS emo [])) ∧
    (maxMatchWeight (strLower text) (agetD EMOTION_KEYWORDS emo []) = 0 ∨
      ∃ kw ∈ agetD EMOTION_KEYWORDS emo [],
        containsSub kw.1 (strLower text) = true ∧
        maxMatchWeight (strLower text) (agetD EMOTION_KEYWORDS emo []) = kw.2) := by
  refine ⟨?_, ?_, ?_⟩
  · unfold get_emotion_weights
    exact alookup_lexScores (strLower text) EMOTION_KEYWORDS emo (by decide)
  · intro kw hmem hmatch
    exact mmw_fold_matched_le (strLower text) kw hmatch _ hmem 0
  · exact mmw_fold_attain (strLower text) (agetD EMOTION_KEYWORDS emo []) 0

-- C6: negation suppression

theorem alookup_mulKey_same (m : ScoreMap) (k : String) (f : ℚ) :
    alookup (mulKey m k f) k = (alookup m k).map (fun v => v * f) := by
  induction m with
  | nil => rfl
  | cons e rest ih =>
    obtain ⟨a, b⟩ := e
    by_cases hak : a = k
    · subst hak
      have hhead : mulKey ((a, b) :: rest) a f = (a, b * f) :: mulKey rest a f := by
        unfold mulKey
        rw [List.map_cons]
        congr 1
        simp
      rw [hhead]
      show (if a = a then some (b * f) else _) = ((if a = a then some b else alookup rest a).map _)
      rw [if_pos rfl, if_pos rfl]
      rfl
    · have hhead : mulKey ((a, b) :: rest) k f = (a, b) :: mulKey rest k f := by
        unfold mulKey
        rw [List.map_cons]
        congr 1
        simp [hak]
      rw [hhead]
      show (if a = k then some b else alookup (mulKey rest k f) k)
        = ((if a = k then some b else alookup rest k).map _)
      rw [if_neg hak, if_neg hak]
      exact ih

theorem alookup_mulKey_other (m : ScoreMap) (k : String) (f : ℚ) (key : String)
    (hne : key ≠ k) : alookup (mulKey m k f) key = alookup m key := by
  induction m with
  | nil => rfl
  | cons e rest ih =>
    obtain ⟨a, b⟩ := e
    by_cases hak : a = k
    · subst hak
      have hhead : mulKey ((a, b) :: rest) a f = (a, b * f) :: mulKey rest a f := by
        unfold mulKey
        rw [List.map_cons]
        congr 1
        simp
      rw [hhead]
      have hanek : a ≠ key := fun h => hne (h.symm)
      show (if a = key then some (b * f) else alookup (mulKey rest a f) key)
        = (if a = key then some b else alookup rest key)
      rw [if_neg hanek, if_neg hanek]
      exact ih
    · have hhead : mulKey ((a, b) :: rest) k f = (a, b) :: mulKey rest k f := by
        unfold mulKey
        rw [List.map_cons]
        congr 1
        simp [hak]
      rw [hhead]
      show (if a = key then some b else alookup (mulKey rest k f) key)
        = (if a = key then some b else alookup rest key)
      by_cases hakey : a = key
      · rw [if_pos hakey, if_pos hakey]
      · rw [if_neg hakey, if_neg hakey]
        exact ih

theorem keys_mulKey (m : ScoreMap) (k : String) (f : ℚ) :
    keys (mulKey m k f) = keys m := by
  induction m with
  | nil => rfl
  | cons e rest ih =>
    obtain ⟨a, b⟩ := e
    unfold mulKey keys at ih ⊢
    rw [List.map_cons, List.map_cons, List.map_cons]
    by_cases hak : a = k
    · subst hak
      rw [ih]
      congr 1
      simp
    · rw [ih]
      congr 1
      simp [hak]

theorem suppressGroups_lookup (negs : List String) (emo : String)
    (groups : List (String × List String)) (m : ScoreMap) (key : String) :
    alookup (suppressGroups negs emo groups m) key
      = if key = emo
        then (alookup m key).map (fun v => v * (3/10) ^ (groupsHit negs groups))
        else alookup m key := by
  induction groups generalizing m with
  | nil =>
    by_cases hk : key = emo
    · rw [if_pos hk]
      show alookup m key = _
      cases alookup m key <;> simp [groupsHit]
    · rw [if_neg hk]
      rfl
  | cons g rest ih =>
    have hstep : suppressGroups negs emo (g :: rest) m
        = suppressGroups negs emo rest
          (if g.2.any (fun w => negs.contains w) then
            (if emo ∈ keys m then mulKey m emo (3/10) else m) else m) := rfl
    rw [hstep]
    by_cases hhit : g.2.any (fun w => negs.contains w) = true
    · rw [if_pos hhit]
      have hcount : groupsHit negs (g :: rest) = groupsHit negs rest + 1 :=
        List.countP_cons_of_pos _ _ hhit
      by_cases hmem : emo ∈ keys m
      · rw [if_pos hmem, ih]
        by_cases hk : key = emo
        · rw [if_pos hk, if_pos hk, hk, alookup_mulKey_same, hcount]
          cases alookup m emo with
          | none => rfl
          | some v =>
            simp only [Option.map_some']
            congr 1
            rw [pow_succ]
            ring
        · rw [if_neg hk, if_neg hk]
          exact alookup_mulKey_other m emo (3/10) key hk
      · rw [if_neg hmem, ih]
        by_cases hk : key = emo
        · rw [if_pos hk, if_pos hk, hk]
          have hnone : alookup m emo = none := by
            rw [alookup_eq_none_iff]
            simpa [keys] using hmem
          rw [hnone]
          rfl
        · rw [if_neg hk, if_neg hk]
    · rw [if_neg hhit]
      have hcount : groupsHit negs (g :: rest) = groupsHit negs rest :=
        List.countP_cons_of_neg _ _ hhit
      rw [ih, hcount]

theorem handleFold_lookup (negs : List String)
    (table : List (String × List (String × List String))) (m : ScoreMap) (key : String) :
    alookup (table.foldl (fun acc eg => suppressGroups negs eg.1 eg.2 acc) m) key
      = (alookup m key).map (fun v => v * (3/10) ^ (negPowAux negs table key)) := by
  induction table generalizing m with
  | nil =>
    show alookup m key = _
    cases alookup m key <;> simp [negPowAux]
  | cons eg rest ih =>
    rw [List.foldl_cons, ih, suppressGroups_lookup]
    by_cases hk : key = eg.1
    · rw [if_pos hk]
      have hpow : negPowAux negs (eg :: rest) key
          = groupsHit negs eg.2 + negPowAux negs rest key := by
        show (if eg.1 = key then groupsHit negs eg.2 else 0) + negPowAux negs rest key = _
        rw [if_pos hk.symm]
      rw [hpow]
      cases alookup m key with
      | none => rfl
      | some v =>
        simp only [Option.map_some']
        congr 1
        rw [pow_add]
        ring
    · rw [if_neg hk]
      have hpow : negPowAux negs (eg :: rest) key = negPowAux negs rest key := by
        show (if eg.1 = key then groupsHit negs eg.2 else 0) + negPowAux negs rest key = _
        rw [if_neg (fun h => hk h.symm), Nat.zero_add]
      rw [hpow]

theorem handle_negations_lookup (text : String) (m : ScoreMap) (key : String) :
    alookup (handle_negations text m) key
      = (alookup m key).map
          (fun v => v * (3/10) ^ (negPowAux (negatedWords text) emotion_patterns key)) :=
  handleFold_lookup (negatedWords text) emotion_patterns m key

theorem negPowAux_pos (negs : List String)
    (table : List (String × List (String × List String))) (emo : String)
    (eg : String × List (String × List String)) (hmem : eg ∈ table)
    (hname : eg.1 = emo) (hhit : 0 < groupsHit negs eg.2) :
    0 < negPowAux negs table emo := by
  induction table with
  | nil => cases hmem
  | cons a rest ih =>
    unfold negPowAux
    rcases List.mem_cons.mp hmem with h | h
    · subst h
      rw [if_pos hname]
      omega
    · have := ih h
      omega

/-- C6: any captured negated word that is a trigger phrase of a category
present in the fused map multiplies that category's score by 0.3 once per
hit pattern group (at least once), so the suppressed score is at most 0.3
times the un-suppressed fused score — suppressed, not zeroed. -/
theorem C6_negation_suppression (text : String) (m : ScoreMap) (emo w : String)
    (hw : w ∈ negatedWords text)
    (htrig : ∃ eg ∈ emotion_patterns, eg.1 = emo ∧ ∃ g ∈ eg.2, w ∈ g.2)
    (v : ℚ) (hv : alookup m emo = some v) (hpos : 0 ≤ v) :
    ∃ k : ℕ, 1 ≤ k ∧
      alookup (handle_negations text m) emo = some ((3/10) ^ k * v) ∧
      (3/10) ^ k * v ≤ (3/10) * v := by
  obtain ⟨eg, hmem, hname, g, hg, hwg⟩ := htrig
  refine ⟨negPowAux (negatedWords text) emotion_patterns emo, ?_, ?_, ?_⟩
  · have hhit : 0 < groupsHit (negatedWords text) eg.2 := by
      rw [groupsHit, List.countP_pos_iff]
      exact ⟨g, hg, List.any_eq_true.mpr ⟨w, hwg, List.elem_iff.mpr hw⟩⟩
    exact negPowAux_pos _ _ _ eg hmem hname hhit
  · rw [handle_negations_lookup, hv]
    simp only [Option.map_some']
    congr 1
    ring
  · have hple : ((3:ℚ)/10) ^ (negPowAux (negatedWords text) emotion_patterns emo) ≤ 3/10 := by
      have h1 : ((3:ℚ)/10) ^ (negPowAux (negatedWords text) emotion_patterns emo)
          ≤ (3/10) ^ 1 := by
        apply pow_le_pow_of_le_one (by norm_num) (by norm_num)
        have hhit : 0 < groupsHit (negatedWords text) eg.2 := by
          rw [groupsHit, List.countP_pos_iff]
          exact ⟨g, hg, List.any_eq_true.mpr ⟨w, hwg, List.elem_iff.mpr hw⟩⟩
        have := negPowAux_pos _ _ _ eg hmem hname hhit
        omega
      simpa using h1
    exact mul_le_mul_of_nonneg_right hple hpos

/-- C6 witness: "not angry" suppresses the mad category present with score
1, yielding 0.3 ≤ 0.3 × 1. -/
theorem C6_negation_suppression_witness :
    ∃ k : ℕ, 1 ≤ k ∧
      alookup (handle_negations "not angry" [("mad", 1)]) "mad"
        = some (((3:ℚ)/10) ^ k * 1) ∧
      ((3:ℚ)/10) ^ k * 1 ≤ (3/10) * 1 :=
  C6_negation_suppression "not angry" [("mad", 1)] "mad" "angry"
    (by decide) (by decide) 1 rfl (by norm_num)

theorem mem_setKey (m : ScoreMap) (k : String) (v : ℚ) (kv : String × ℚ)
    (h : kv ∈ setKey m k v) : kv ∈ m ∨ kv.2 = v := by
  unfold setKey at h
  obtain ⟨kv0, hkv0, heq⟩ := List.mem_map.mp h
  by_cases hk : kv0.1 = k
  · rw [if_pos hk] at heq
    right
    rw [← heq]
  · rw [if_neg hk] at heq
    left
    rw [← heq]
    exact hkv0

theorem mapPredictions_fold_bound (mapping : List (String × String))
    (preds : List (String × ℚ)) (hp : ∀ p ∈ preds, 0 ≤ p.2 ∧ p.2 ≤ 1) :
    ∀ acc : ScoreMap, allVals01 acc →
      allVals01 (preds.foldl (fun acc p =>
        match alookup acc (agetD mapping (strLower p.1) "neutral") with
        | some old => setKey acc (agetD mapping (strLower p.1) "neutral") (max old p.2)
        | none => acc ++ [(agetD mapping (strLower p.1) "neutral", p.2)]) acc) := by
  induction preds with
  | nil => exact fun acc hacc => hacc
  | cons p rest ih =>
    intro acc hacc
    rw [List.foldl_cons]
    have hpb := hp p (List.mem_cons_self _ _)
    refine ih (fun q hq => hp q (List.mem_cons_of_mem _ hq)) _ ?_
    cases halk : alookup acc (agetD mapping (strLower p.1) "neutral") with
    | some old =>
      intro kv hkv
      rcases mem_setKey _ _ _ _ hkv with hm | hv
      · exact hacc kv hm
      · have hob := hacc _ (alookup_mem _ _ _ halk)
        rw [hv]
        exact ⟨le_max_of_le_right hpb.1, max_le hob.2 hpb.2⟩
    | none =>
      intro kv hkv
      rcases List.mem_append.mp hkv with hm | hm
      · exact hacc kv hm
      · have : kv = (agetD mapping (strLower p.1) "neutral", p.2) := by simpa using hm
        rw [this]
        exact hpb

theorem mapPredictions_bound (mapping : List (String × String))
    (preds : List (String × ℚ)) (hp : ∀ p ∈ preds, 0 ≤ p.2 ∧ p.2 ≤ 1) :
    allVals01 (mapPredictions mapping preds) :=
  mapPredictions_fold_bound mapping preds hp [] (by intro kv h; cases h)

theorem rawPattern_fold_pos (text : String)
    (table : List (String × List (String × List String))) :
    ∀ acc : ScoreMap, (∀ kv ∈ acc, 0 < kv.2) →
      ∀ kv ∈ table.foldl (fun acc eg =>
          if patternScore text eg.2 > 0 then acc ++ [(eg.1, patternScore text eg.2)] else acc)
        acc, 0 < kv.2 := by
  induction table with
  | nil => exact fun acc hacc => hacc
  | cons eg rest ih =>
    intro acc hacc
    rw [List.foldl_cons]
    refine ih _ ?_
    by_cases hc : patternScore text eg.2 > 0
    · rw [if_pos hc]
      intro kv hkv
      rcases List.mem_append.mp hkv with hm | hm
      · exact hacc kv hm
      · have : kv = (eg.1, patternScore text eg.2) := by simpa using hm
        rw [this]
        exact hc
    · rw [if_neg hc]
      exact hacc

theorem rawPatternScores_pos (text : String) :
    ∀ kv ∈ rawPatternScores text, 0 < kv.2 :=
  rawPattern_fold_pos text emotion_patterns [] (by intro kv h; cases h)

theorem maxVal_fold_ge_init (m : ScoreMap) (init : ℚ) :
    init ≤ m.foldl (fun acc kv => max acc kv.2) init := by
  induction m generalizing init with
  | nil => exact le_refl _
  | cons kv rest ih =>
    rw [List.foldl_cons]
    exact le_trans (le_max_left _ _) (ih _)

theorem maxVal_fold_ge_mem (m : ScoreMap) (kv : String × ℚ) (hmem : kv ∈ m) :
    ∀ init : ℚ, kv.2 ≤ m.foldl (fun acc kv => max acc kv.2) init := by
  induction m with
  | nil => cases hmem
  | cons a rest ih =>
    intro init
    rw [List.foldl_cons]
    rcases List.mem_cons.mp hmem with h | h
    · subst h
      exact le_trans (le_max_right _ _) (maxVal_fold_ge_init rest _)
    · exact ih h _

theorem maxVal_ge (m : ScoreMap) (kv : String × ℚ) (hmem : kv ∈ m) :
    kv.2 ≤ maxVal m :=
  maxVal_fold_ge_mem m kv hmem 0

theorem pattern_detection_bound (text : String) :
    allVals01 (pattern_detection text) := by
  unfold pattern_detection
  by_cases he : rawPatternScores text = []
  · rw [if_pos he]
    intro kv h
    rw [he] at h
    cases h
  · rw [if_neg he]
    intro kv hkv
    obtain ⟨kv0, hkv0, heq⟩ := List.mem_map.mp hkv
    have hpos := rawPatternScores_pos text kv0 hkv0
    have hle := maxVal_ge _ kv0 hkv0
    have hmaxpos : 0 < maxVal (rawPatternScores text) := lt_of_lt_of_le hpos hle
    rw [← heq]
    constructor
    · exact div_nonneg (le_of_lt hpos) (le_of_lt hmaxpos)
    · exact (div_le_one hmaxpos).mpr hle

theorem agetD_bound (m : ScoreMap) (k : String) (hm : allVals01 m) :
    0 ≤ agetD m k 0 ∧ agetD m k 0 ≤ 1 := by
  rw [agetD_of_alookup]
  cases halk : alookup m k with
  | none => norm_num
  | some v =>
    have := hm _ (alookup_mem _ _ _ halk)
    simpa using this

theorem combine_predictions_bound (b p : ScoreMap) (hb : allVals01 b)
    (hp : allVals01 p) : allVals01 (combine_predictions b p) := by
  unfold combine_predictions
  by_cases hbe : b = []
  · rw [if_pos hbe]
    exact hp
  · rw [if_neg hbe]
    by_cases hpe : p = []
    · rw [if_pos hpe]
      exact hb
    · rw [if_neg hpe]
      intro kv hkv
      obtain ⟨emo, _, heq⟩ := List.mem_map.mp hkv
      rw [← heq]
      have h1 := agetD_bound b emo hb
      have h2 := agetD_bound p emo hp
      constructor
      · simp only []
        nlinarith [h1.1, h2.1]
      · simp only []
        nlinarith [h1.2, h2.2]

theorem mem_mulKey (m : ScoreMap) (k : String) (f : ℚ) (kv : String × ℚ)
    (h : kv ∈ mulKey m k f) : kv ∈ m ∨ ∃ kv0 ∈ m, kv.2 = kv0.2 * f := by
  unfold mulKey at h
  obtain ⟨kv0, hkv0, heq⟩ := List.mem_map.mp h
  by_cases hk : kv0.1 = k
  · rw [if_pos hk] at heq
    right
    exact ⟨kv0, hkv0, by rw [← heq]⟩
  · rw [if_neg hk] at heq
    left
    rw [← heq]
    exact hkv0

theorem mulKey_allVals01 (m : ScoreMap) (k : String) (hm : allVals01 m) :
    allVals01 (mulKey m k (3/10)) := by
  intro kv hkv
  rcases mem_mulKey _ _ _ _ hkv with h | ⟨kv0, hkv0, hval⟩
  · exact hm kv h
  · have := hm kv0 hkv0
    rw [hval]
    constructor
    · nlinarith [this.1]
    · nlinarith [this.1, this.2]

theorem suppressGroups_allVals01 (negs : List String) (emo : String)
    (groups : List (String × List String)) (m : ScoreMap) (hm : allVals01 m) :
    allVals01 (suppressGroups negs emo groups m) := by
  induction groups generalizing m with
  | nil => exact hm
  | cons g rest ih =>
    have hstep : suppressGroups negs emo (g :: rest) m
        = suppressGroups negs emo rest
          (if g.2.any (fun w => negs.contains w) then
            (if emo ∈ keys m then mulKey m emo (3/10) else m) else m) := rfl
    rw [hstep]
    apply ih
    by_cases hhit : g.2.any (fun w => negs.contains w) = true
    · rw [if_pos hhit]
      by_cases hmem : emo ∈ keys m
      · rw [if_pos hmem]
        exact mulKey_allVals01 m emo hm
      · rw [if_neg hmem]
        exact hm
    · rw [if_neg hhit]
      exact hm

theorem handle_negations_allVals01 (text : String) (m : ScoreMap)
    (hm : allVals01 m) : allVals01 (handle_negations text m) := by
  unfold handle_negations
  generalize negatedWords text = negs
  induction emotion_patterns generalizing m with
  | nil => exact hm
  | cons eg rest ih =>
    rw [List.foldl_cons]
    exact ih _ (suppressGroups_allVals01 negs eg.1 eg.2 m hm)

theorem argmaxKey_fold_mem (m : ScoreMap) (kv : String × ℚ) :
    ∀ best : Option (String × ℚ),
      m.foldl (fun best kv =>
        match best with
        | none => some kv
        | some b => if kv.2 > b.2 then some kv else some b) best = some kv →
      best = some kv ∨ kv ∈ m := by
  induction m with
  | nil => exact fun best h => Or.inl h
  | cons a rest ih =>
    intro best h
    rw [List.foldl_cons] at h
    rcases ih _ h with hstep | hmem
    · cases best with
      | none =>
        have h2 : some a = some kv := hstep
        right
        rw [List.mem_cons]
        exact Or.inl (Option.some.inj h2).symm
      | some b =>
        have h2 : (if a.2 > b.2 then some a else some b) = some kv := hstep
        by_cases hgt : a.2 > b.2
        · rw [if_pos hgt] at h2
          right
          rw [List.mem_cons]
          exact Or.inl (Option.some.inj h2).symm
        · rw [if_neg hgt] at h2
          exact Or.inl h2
    · exact Or.inr (List.mem_cons_of_mem _ hmem)

theorem argmaxKey_mem (m : ScoreMap) (kv : String × ℚ) (h : argmaxKey m = some kv) :
    kv ∈ m := by
  rcases argmaxKey_fold_mem m kv none h with h2 | h2
  · cases h2
  · exact h2

theorem get_primary_emotion_bound (m : ScoreMap) (vs : SentScores)
    (hm : allVals01 m) (hc : -1 ≤ vs.compound ∧ vs.compound ≤ 1) :
    0 ≤ (get_primary_emotion m vs).2 ∧ (get_primary_emotion m vs).2 ≤ 1 := by
  cases hargs : argmaxKey m with
  | none =>
    have hred : get_primary_emotion m vs
        = (if vs.compound ≥ 3/10 then ("happy", |vs.compound|)
           else if vs.compound ≤ -(3/10) then ("sad", |vs.compound|)
           else ("neutral", 1/2)) := by
      unfold get_primary_emotion
      rw [hargs]
    rw [hred]
    split_ifs
    · exact ⟨abs_nonneg _, abs_le.mpr hc⟩
    · exact ⟨abs_nonneg _, abs_le.mpr hc⟩
    · norm_num
  | some kv =>
    obtain ⟨emo, conf⟩ := kv
    have hbound := hm _ (argmaxKey_mem m _ hargs)
    have hred : get_primary_emotion m vs
        = (if conf < 2/10 then ("neutral", conf) else (emo, conf)) := by
      unfold get_primary_emotion
      rw [hargs]
    rw [hred]
    split_ifs
    · exact hbound
    · exact hbound

theorem round2_mono (x y : ℚ) (h : x ≤ y) : round2 x ≤ round2 y := by
  unfold round2
  have h1 : (⌊x * 100 + 1/2⌋ : ℤ) ≤ ⌊y * 100 + 1/2⌋ :=
    Int.floor_le_floor (by linarith)
  have h2 : ((⌊x * 100 + 1/2⌋ : ℤ) : ℚ) ≤ ((⌊y * 100 + 1/2⌋ : ℤ) : ℚ) := by
    exact_mod_cast h1
  linarith

theorem round2_zero : round2 0 = 0 := by
  norm_num [round2]

theorem round2_tenth : round2 (1/10) = 1/10 := by
  norm_num [round2]

theorem round2_one : round2 1 = 1 := by
  norm_num [round2]

theorem calc_intensity_bound (text : String) (vs : SentScores) :
    1/10 ≤ calculate_modern_intensity text vs ∧ calculate_modern_intensity text vs ≤ 1 := by
  unfold calculate_modern_intensity
  constructor
  · exact le_max_left _ _
  · exact max_le (by norm_num) (min_le_left _ _)

theorem bert_emotions_bound (mods : Models) (text : String)
    (hmodels : ∀ (f : Model) (preds : List (String × ℚ)),
      (mods.bertweet_model = some f ∨ mods.fallback_model = some f) →
      f (preprocess_social_media_text text) = some preds →
      ∀ p ∈ preds, 0 ≤ p.2 ∧ p.2 ≤ 1) :
    allVals01 (match mods.bertweet_model with
      | some f => bertweet_prediction f (preprocess_social_media_text text)
      | none =>
        match mods.fallback_model with
        | some f => fallback_prediction f (preprocess_social_media_text text)
        | none => []) := by
  cases hbm : mods.bertweet_model with
  | some f =>
    show allVals01 (bertweet_prediction f (preprocess_social_media_text text))
    unfold bertweet_prediction
    cases hf : f (preprocess_social_media_text text) with
    | none =>
      intro kv h
      cases h
    | some preds =>
      exact mapPredictions_bound _ _ (hmodels f preds (Or.inl hbm) hf)
  | none =>
    cases hfm : mods.fallback_model with
    | some f =>
      show allVals01 (fallback_prediction f (preprocess_social_media_text text))
      unfold fallback_prediction
      cases hf : f (preprocess_social_media_text text) with
      | none =>
        intro kv h
        cases h
      | some preds =>
        exact mapPredictions_bound _ _ (hmodels f preds (Or.inr hfm) hf)
    | none =>
      intro kv h
      cases h

/-- C7: for every input text (the empty string included) and any
collaborator outputs within their contracts (VADER compound within [-1,1],
classifier prediction scores within [0,1]), the analysis result's
intensity lies in [0.1, 1.0] — clamped with a 0.1 floor, never exactly
zero — and its confidence lies in [0, 1]. -/
theorem C7_intensity_confidence_bounds (mods : Models)
    (vader : String → SentScores) (nowStr text : String)
    (hc : -1 ≤ (vader text).compound ∧ (vader text).compound ≤ 1)
    (hmodels : ∀ (f : Model) (preds : List (String × ℚ)),
      (mods.bertweet_model = some f ∨ mods.fallback_model = some f) →
      f (preprocess_social_media_text text) = some preds →
      ∀ p ∈ preds, 0 ≤ p.2 ∧ p.2 ≤ 1) :
    (1/10 ≤ (analyze_journal_entry mods vader nowStr text).intensity ∧
      (analyze_journal_entry mods vader nowStr text).intensity ≤ 1) ∧
    (0 ≤ (analyze_journal_entry mods vader nowStr text).confidence ∧
      (analyze_journal_entry mods vader nowStr text).confidence ≤ 1) := by
  have hint : (analyze_journal_entry mods vader nowStr text).intensity
      = round2 (calculate_modern_intensity text (vader text)) := rfl
  have hconf : (analyze_journal_entry mods vader nowStr text).confidence
      = round2 ((get_primary_emotion
          (handle_negations text (combine_predictions
            (match mods.bertweet_model with
             | some f => bertweet_prediction f (preprocess_social_media_text text)
             | none =>
               match mods.fallback_model with
               | some f => fallback_prediction f (preprocess_social_media_text text)
               | none => [])
            (pattern_detection (strLower text)))) (vader text)).2) := rfl
  constructor
  · rw [hint]
    have hb := calc_intensity_bound text (vader text)
    constructor
    · calc (1:ℚ)/10 = round2 (1/10) := round2_tenth.symm
        _ ≤ _ := round2_mono _ _ hb.1
    · calc round2 (calculate_modern_intensity text (vader text))
          ≤ round2 1 := round2_mono _ _ hb.2
        _ = 1 := round2_one
  · rw [hconf]
    have hfinal : allVals01 (handle_negations text (combine_predictions
        (match mods.bertweet_model with
         | some f => bertweet_prediction f (preprocess_social_media_text text)
         | none =>
           match mods.fallback_model with
           | some f => fallback_prediction f (preprocess_social_media_text text)
           | none => [])
        (pattern_detection (strLower text)))) :=
      handle_negations_allVals01 _ _
        (combine_predictions_bound _ _ (bert_emotions_bound mods text hmodels)
          (pattern_detection_bound _))
    have hb := get_primary_emotion_bound _ (vader text) hfinal hc
    constructor
    · calc (0:ℚ) = round2 0 := round2_zero.symm
        _ ≤ _ := round2_mono _ _ hb.1
    · calc round2 _ ≤ round2 1 := round2_mono _ _ hb.2
        _ = 1 := round2_one

/-- C7 witness: no classifier loaded, a null sentiment scorer and the
empty text. -/
theorem C7_intensity_confidence_bounds_witness :
    (1/10 ≤ (analyze_journal_entry ⟨none, none⟩ zeroScorer "ts" "").intensity ∧
      (analyze_journal_entry ⟨none, none⟩ zeroScorer "ts" "").intensity ≤ 1) ∧
    (0 ≤ (analyze_journal_entry ⟨none, none⟩ zeroScorer "ts" "").confidence ∧
      (analyze_journal_entry ⟨none, none⟩ zeroScorer "ts" "").confidence ≤ 1) :=
  C7_intensity_confidence_bounds ⟨none, none⟩ zeroScorer "ts" ""
    (by norm_num [zeroScorer])
    (by
      intro f preds h hf
      rcases h with h | h <;> cases h)

/-- C10 counterexample: with a loaded BERTweet model whose prediction call
errors, `analyze_journal_entry` returns exactly the no-model (pattern-only)
result in every field — the classifier contributed nothing — yet
`analysis_method` still reads "bertweet" and not "pattern_only": the field
reflects which model is loaded, not which sources were actually used. -/
theorem C10_counterexample :
    (analyze_journal_entry ⟨some failingModel, none⟩ zeroScorer "ts" "happy").analysis_method
      = "bertweet" ∧
    (analyze_journal_entry ⟨some failingModel, none⟩ zeroScorer "ts" "happy").emotion_scores
      = (analyze_journal_entry ⟨none, none⟩ zeroScorer "ts" "happy").emotion_scores ∧
    (analyze_journal_entry ⟨none, none⟩ zeroScorer "ts" "happy").analysis_method
      = "pattern_only" ∧
    ("bertweet" : String) ≠ "pattern_only" := by
  refine ⟨rfl, rfl, rfl, by decide⟩

/-- C10 amended: the engine never raises (the prediction call's try/except
is the `Option` result, and `analyze_journal_entry` is total); a loaded
classifier whose call errors contributes an empty score map, the result
equals the no-classifier result in every other field, but
`analysis_method` reports the LOADED model ("bertweet"), not the
combination of sources actually used. -/
theorem C10_degraded_classifier_amended (mods : Models) (f : Model)
    (vader : String → SentScores) (nowStr text : String)
    (hb : mods.bertweet_model = some f)
    (hfail : f (preprocess_social_media_text text) = none) :
    analyze_journal_entry mods vader nowStr text
      = { analyze_journal_entry ⟨none, none⟩ vader nowStr text with
          analysis_method := "bertweet" } := by
  have hbp : bertweet_prediction f (preprocess_social_media_text text) = [] := by
    unfold bertweet_prediction
    rw [hfail]
  simp only [analyze_journal_entry, hb, hbp]
  rfl

/-- C10 witness: a closed instance of the amended statement. -/
theorem C10_degraded_classifier_amended_witness :
    analyze_journal_entry ⟨some failingModel, none⟩ zeroScorer "ts" "hello"
      = { analyze_journal_entry ⟨none, none⟩ zeroScorer "ts" "hello" with
          analysis_method := "bertweet" } :=
  C10_degraded_classifier_amended ⟨some failingModel, none⟩ failingModel
    zeroScorer "ts" "hello" rfl rfl

theorem decay_eq_self (v : Affect_Vector) (now : ℚ)
    (h : ¬ (now - v.last_update > 86400)) : v.decay now = v := by
  unfold Affect_Vector.decay
  rw [if_neg h]

theorem decay_no_retrigger (v : Affect_Vector) (now : ℚ) :
    ¬ (now - (v.decay now).last_update > 86400) := by
  unfold Affect_Vector.decay
  by_cases h : now - v.last_update > 86400
  · rw [if_pos h]
    norm_num
  · rw [if_neg h]
    exact h

theorem update_decay_fix (v : Affect_Vector) (scorer : String → SentScores)
    (now : ℚ) (t : String) :
    (v.update_from_text scorer now t).decay now = v.update_from_text scorer now t := by
  apply decay_eq_self
  have hlu : (v.update_from_text scorer now t).last_update = (v.decay now).last_update := rfl
  rw [hlu]
  exact decay_no_retrigger v now

theorem startsWithSub_mono (n1 n2 hay : List Char)
    (h : startsWithSub hay (n1 ++ n2) = true) : startsWithSub hay n1 = true := by
  induction n1 generalizing hay with
  | nil => cases hay <;> rfl
  | cons x xs ih =>
    cases hay with
    | nil => simp [startsWithSub] at h
    | cons y ys =>
      simp only [List.cons_append, startsWithSub, Bool.and_eq_true] at h ⊢
      exact ⟨h.1, ih ys h.2⟩

theorem containsSubL_mono (n1 n2 hay : List Char)
    (h : containsSubL (n1 ++ n2) hay = true) : containsSubL n1 hay = true := by
  induction hay with
  | nil =>
    simp only [containsSubL, List.isEmpty_eq_true, List.append_eq_nil] at h ⊢
    exact h.1
  | cons c cs ih =>
    simp only [containsSubL, Bool.or_eq_true] at h ⊢
    rcases h with h1 | h2
    · exact Or.inl (startsWithSub_mono _ _ _ h1)
    · exact Or.inr (ih h2)

theorem containsSub_confession (low : String)
    (h : containsSub "confess" low = false) :
    containsSub "confession" low = false := by
  by_contra hc
  have hc' : containsSub "confession" low = true := by
    revert hc
    cases containsSub "confession" low <;> simp
  have heq : ("confession".data : List Char) = "confess".data ++ "ion".data := by
    decide
  have htrue : containsSub "confess" low = true := by
    unfold containsSub at hc' ⊢
    rw [heq] at hc'
    exact containsSubL_mono _ _ _ hc'
  rw [htrue] at h
  exact Bool.noConfusion h

theorem addDim_getDim (d : AffectDict) (a : Dim) (x : ℚ) (dim : Dim) :
    (d.addDim a x).getDim dim = d.getDim dim + (if a = dim then x else 0) := by
  cases a <;> cases dim <;> simp [AffectDict.addDim, AffectDict.getDim]

theorem applyMods_getDim (mods : List (Dim × ℚ)) (d : AffectDict) (dim : Dim) :
    (applyMods mods d).getDim dim = d.getDim dim + modSum mods dim := by
  induction mods generalizing d with
  | nil => simp [applyMods, modSum]
  | cons m rest ih =>
    have hstep : applyMods (m :: rest) d = applyMods rest (d.addDim m.1 m.2) := rfl
    rw [hstep, ih, addDim_getDim, modSum]
    ring

theorem applyKw_getDim (low : String) (l : List (String × List (Dim × ℚ)))
    (d : AffectDict) (dim : Dim) :
    (applyKw low l d).getDim dim = d.getDim dim + kwSum low l dim := by
  induction l generalizing d with
  | nil => simp [applyKw, kwSum]
  | cons km rest ih =>
    have hstep : applyKw low (km :: rest) d
        = applyKw low rest (if containsSub km.1 low then applyMods km.2 d else d) := rfl
    rw [hstep, ih, kwSum]
    cases hc : containsSub km.1 low <;> simp [applyMods_getDim] <;> ring

theorem applyKw_valence (low : String) (l : List (String × List (Dim × ℚ)))
    (d : AffectDict) : (applyKw low l d).valence = d.valence + kwSum low l .valence :=
  applyKw_getDim low l d .valence

theorem applyKw_arousal (low : String) (l : List (String × List (Dim × ℚ)))
    (d : AffectDict) : (applyKw low l d).arousal = d.arousal + kwSum low l .arousal :=
  applyKw_getDim low l d .arousal

theorem applyKw_dominance (low : String) (l : List (String × List (Dim × ℚ)))
    (d : AffectDict) : (applyKw low l d).dominance = d.dominance + kwSum low l .dominance :=
  applyKw_getDim low l d .dominance

theorem applyKw_trust (low : String) (l : List (String × List (Dim × ℚ)))
    (d : AffectDict) : (applyKw low l d).trust = d.trust + kwSum low l .trust :=
  applyKw_getDim low l d .trust

/-- Field-level description of `update_from_text`: valence, arousal and
trust are overwritten from the scorer output before the keyword deltas are
added, while dominance keeps its decayed prior value. -/
theorem update_fields (v : Affect_Vector) (scorer : String → SentScores)
    (now : ℚ) (t : String) :
    (v.update_from_text scorer now t).vector.valence
      = clamp1 ((scorer t).compound + kwSum (strLower t) keyword_modifiers .valence) ∧
    (v.update_from_text scorer now t).vector.arousal
      = clamp1 (max (scorer t).pos (scorer t).neg
          + kwSum (strLower t) keyword_modifiers .arousal) ∧
    (v.update_from_text scorer now t).vector.trust
      = clamp1 ((scorer t).pos - (scorer t).neg
          + kwSum (strLower t) keyword_modifiers .trust) ∧
    (v.update_from_text scorer now t).vector.dominance
      = clamp1 ((v.decay now).vector.dominance
          + kwSum (strLower t) keyword_modifiers .dominance) ∧
    (v.update_from_text scorer now t).last_update = (v.decay now).last_update := by
  refine ⟨?_, ?_, ?_, ?_, rfl⟩
  · exact congrArg clamp1 (applyKw_valence _ _ _)
  · exact congrArg clamp1 (applyKw_arousal _ _ _)
  · exact congrArg clamp1 (applyKw_trust _ _ _)
  · exact congrArg clamp1 (applyKw_dominance _ _ _)

theorem AffectDict_eq_of_fields {d1 d2 : AffectDict} (hv : d1.valence = d2.valence)
    (ha : d1.arousal = d2.arousal) (hd : d1.dominance = d2.dominance)
    (ht : d1.trust = d2.trust) : d1 = d2 := by
  cases d1
  cases d2
  simp_all

theorem Affect_Vector_eq_of_fields {v1 v2 : Affect_Vector} (h : v1.vector = v2.vector)
    (hl : v1.last_update = v2.last_update) : v1 = v2 := by
  cases v1
  cases v2
  simp_all

theorem kwSum_dominance_zero (low : String)
    (h : containsSub "confess" low = false) :
    kwSum low keyword_modifiers .dominance = 0 := by
  have h2 := containsSub_confession low h
  simp [keyword_modifiers, kwSum, modSum, h, h2]

/-- C1 counterexample: starting from a fresh vector, calling
`update_from_text` twice in immediate succession (same clock reading, so no
decay) on the text "confess" changes the dominance dimension between the
first and the second call: the dominance keyword modifier accumulates
because dominance is never overwritten by the sentiment step. -/
theorem C1_counterexample :
    ((Affect_Vector.init 0).update_from_text zeroScorer 0 "confess").vector.dominance
      = -(10/100) ∧
    (((Affect_Vector.init 0).update_from_text zeroScorer 0 "confess").update_from_text
        zeroScorer 0 "confess").vector.dominance = -(20/100) ∧
    ((-(20/100) : ℚ) ≠ -(10/100)) := by
  have hks : kwSum (strLower "confess") keyword_modifiers .dominance = -(10/100) := by
    have e1 : containsSub "confess" (strLower "confess") = true := by decide
    have e2 : containsSub "confession" (strLower "confess") = false := by decide
    have e3 : containsSub "thank you" (strLower "confess") = false := by decide
    have e4 : containsSub "appreciate" (strLower "confess") = false := by decide
    have e5 : containsSub "leave me alone" (strLower "confess") = false := by decide
    have e6 : containsSub "goodbye" (strLower "confess") = false := by decide
    simp [keyword_modifiers, kwSum, modSum, e1, e2, e3, e4, e5, e6]
  have hdecay0 : (Affect_Vector.init 0).decay 0 = Affect_Vector.init 0 := by
    apply decay_eq_self
    norm_num [Affect_Vector.init]
  have h1 : ((Affect_Vector.init 0).update_from_text zeroScorer 0 "confess").vector.dominance
      = -(10/100) := by
    have := (update_fields (Affect_Vector.init 0) zeroScorer 0 "confess").2.2.2.1
    rw [this, hdecay0, hks]
    show clamp1 ((0 : ℚ) + -(10/100)) = -(10/100)
    norm_num [clamp1]
  refine ⟨h1, ?_, by norm_num⟩
  have hfix := update_decay_fix (Affect_Vector.init 0) zeroScorer 0 "confess"
  have := (update_fields ((Affect_Vector.init 0).update_from_text zeroScorer 0 "confess")
      zeroScorer 0 "confess").2.2.2.1
  rw [this, hfix, h1, hks]
  show clamp1 (-(10/100) + -(10/100) : ℚ) = -(20/100)
  norm_num [clamp1]

/-- C1 amended: calling `update_from_text(t)` twice in immediate succession
(same clock reading) always yields the same valence, arousal, trust and
last_update after the second call as after the first; all four dimensions
(dominance included) agree, i.e. the update is idempotent, whenever the
lowered text does not contain the substring "confess" (the common prefix of
the two dominance-modifying keywords). -/
theorem C1_update_idempotent_amended (scorer : String → SentScores) (now : ℚ)
    (v : Affect_Vector) (t : String) :
    (((v.update_from_text scorer now t).update_from_text scorer now t).vector.valence
        = (v.update_from_text scorer now t).vector.valence ∧
     ((v.update_from_text scorer now t).update_from_text scorer now t).vector.arousal
        = (v.update_from_text scorer now t).vector.arousal ∧
     ((v.update_from_text scorer now t).update_from_text scorer now t).vector.trust
        = (v.update_from_text scorer now t).vector.trust ∧
     ((v.update_from_text scorer now t).update_from_text scorer now t).last_update
        = (v.update_from_text scorer now t).last_update) ∧
    (containsSub "confess" (strLower t) = false →
      (v.update_from_text scorer now t).update_from_text scorer now t
        = v.update_from_text scorer now t) := by
  have hfix := update_decay_fix v scorer now t
  have hf1 := update_fields v scorer now t
  have hf2 := update_fields (v.update_from_text scorer now t) scorer now t
  have hval : ((v.update_from_text scorer now t).update_from_text scorer now t).vector.valence
      = (v.update_from_text scorer now t).vector.valence := by
    rw [hf2.1, hf1.1]
  have har : ((v.update_from_text scorer now t).update_from_text scorer now t).vector.arousal
      = (v.update_from_text scorer now t).vector.arousal := by
    rw [hf2.2.1, hf1.2.1]
  have htr : ((v.update_from_text scorer now t).update_from_text scorer now t).vector.trust
      = (v.update_from_text scorer now t).vector.trust := by
    rw [hf2.2.2.1, hf1.2.2.1]
  have hlu : ((v.update_from_text scorer now t).update_from_text scorer now t).last_update
      = (v.update_from_text scorer now t).last_update := by
    rw [hf2.2.2.2.2, hfix]
  refine ⟨⟨hval, har, htr, hlu⟩, ?_⟩
  intro hc
  have hz := kwSum_dominance_zero (strLower t) hc
  have hdom : ((v.update_from_text scorer now t).update_from_text scorer now t).vector.dominance
      = (v.update_from_text scorer now t).vector.dominance := by
    rw [hf2.2.2.2.1, hfix, hz, add_zero, hf1.2.2.2.1, hz, add_zero, clamp1_idem]
  exact Affect_Vector_eq_of_fields (AffectDict_eq_of_fields hval har hdom htr) hlu

theorem scanLoop_spec (N : ℕ) (speaker : Option String)
    (tf : Option (List String)) (l acc : List MemEntry) (h : acc.length < N) :
    scanLoop (N : Int) speaker tf l acc
      = acc ++ (l.filter (entryPass speaker tf)).take (N - acc.length) := by
  induction l generalizing acc with
  | nil => simp [scanLoop]
  | cons e rest ih =>
    by_cases hp : entryPass speaker tf e
    · rw [scanLoop, if_pos hp]
      by_cases hl : (((acc ++ [e]).length : ℕ) : Int) = (N : Int)
      · rw [if_pos hl]
        have hlen : acc.length + 1 = N := by
          have := Nat.cast_injective hl
          simpa using this
        have h1 : N - acc.length = 1 := by omega
        simp [List.filter_cons, hp, h1]
      · rw [if_neg hl]
        have hlen : (acc ++ [e]).length < N := by
          have hne : (acc ++ [e]).length ≠ N := fun hcontra => hl (by rw [hcontra])
          simp only [List.length_append, List.length_singleton] at hne ⊢
          omega
        rw [ih _ hlen]
        obtain ⟨k, hk⟩ : ∃ k, N - acc.length = k + 1 :=
          ⟨N - acc.length - 1, by omega⟩
        have hk2 : N - (acc ++ [e]).length = k := by
          simp only [List.length_append, List.length_singleton]
          omega
        rw [hk2, List.filter_cons, if_pos hp, hk, List.take_succ_cons,
          List.append_assoc]
        rfl
    · rw [scanLoop, if_neg hp, ih _ h, List.filter_cons, if_neg hp]

/-- C5 counterexample: with one stored entry and `limit = 0`, `get_recent`
returns that entry — the break condition `len(out) == limit` is checked
only after an append, so it never fires and every matching entry is
returned instead of at most zero. -/
theorem C5_counterexample :
    (Memory_Store.get_recent ⟨[("s", [⟨"t1", "user", "hello", "neutral", []⟩])]⟩
      0 "s" none none).length = 1 := by
  decide

/-- C5 amended: for every limit N ≥ 1, `get_recent` returns exactly the
last N entries (in chronological order) of the session's records that pass
the speaker and tag filters; in particular at most N entries, every one
passing both filters, in an order that is a subsequence of the stored
chronological order.  (For N = 0 the break never fires and all matching
entries are returned.)  The underlying store is untouched: `get_recent`
computes from `st` without producing a new store. -/
theorem C5_get_recent_amended (st : Memory_Store) (N : ℕ) (hN : 1 ≤ N)
    (sid : String) (speaker : Option String) (tf : Option (List String)) :
    st.get_recent (N : Int) sid speaker tf
      = (((st.records sid).filter (entryPass speaker tf)).reverse.take N).reverse ∧
    (st.get_recent (N : Int) sid speaker tf).length ≤ N ∧
    (∀ e ∈ st.get_recent (N : Int) sid speaker tf, entryPass speaker tf e = true) ∧
    List.Sublist (st.get_recent (N : Int) sid speaker tf) (st.records sid) := by
  have hmain : st.get_recent (N : Int) sid speaker tf
      = (((st.records sid).filter (entryPass speaker tf)).reverse.take N).reverse := by
    unfold Memory_Store.get_recent
    rw [scanLoop_spec N speaker tf _ [] (by simpa using hN)]
    simp [List.filter_reverse]
  refine ⟨hmain, ?_, ?_, ?_⟩
  · rw [hmain]
    simp only [List.length_reverse, List.length_take]
    exact min_le_left _ _
  · intro e he
    rw [hmain] at he
    rw [List.mem_reverse] at he
    have he2 := List.take_sublist N _ |>.mem he
    rw [List.mem_reverse] at he2
    exact (List.mem_filter.mp he2).2
  · rw [hmain]
    have h1 : List.Sublist ((((st.records sid).filter (entryPass speaker tf)).reverse.take N).reverse)
        (((st.records sid).filter (entryPass speaker tf)).reverse.reverse) :=
      List.Sublist.reverse (List.take_sublist _ _)
    rw [List.reverse_reverse] at h1
    exact h1.trans (List.filter_sublist _)

theorem decodeStrList_encode (tags : List String) :
    decodeStrList (tags.map .str) = some tags := by
  induction tags with
  | nil => rfl
  | cons t rest ih => simp [decodeStrList, ih]

theorem decodeEntry_encode (e : MemEntry) :
    decodeEntry (encodeEntry e) = some e := by
  obtain ⟨ts, sp, ms, em, tags⟩ := e
  simp [encodeEntry, decodeEntry, decodeStrList_encode]

theorem decodeEntryList_encode (l : List MemEntry) :
    decodeEntryList (l.map encodeEntry) = some l := by
  induction l with
  | nil => rfl
  | cons e rest ih => simp [decodeEntryList, decodeEntry_encode, ih]

theorem decodeSessions_encode (s : List (String × List MemEntry)) :
    decodeSessions (s.map (fun kv => (kv.1, Json.arr (kv.2.map encodeEntry))))
      = some s := by
  induction s with
  | nil => rfl
  | cons kv rest ih =>
    obtain ⟨k, v⟩ := kv
    simp [decodeSessions, decodeEntryList_encode, ih]

/-- C8: the persisted representation round-trips losslessly — reloading
what `_persist` wrote yields an equal sessions table, so after a restart
every `get_recent` query returns exactly what it returned before. -/
theorem C8_persist_roundtrip (st : Memory_Store) :
    loadJson st.persistJson = some st ∧
    ∀ (limit : Int) (sid : String) (speaker : Option String)
      (tf : Option (List String)),
      ∃ st2, loadJson st.persistJson = some st2 ∧
        st2.get_recent limit sid speaker tf = st.get_recent limit sid speaker tf := by
  have hobj : ∀ kvs, loadJson (.obj kvs)
      = (match decodeSessions kvs with
         | some s => some (⟨s⟩ : Memory_Store)
         | none => none) := fun _ => rfl
  have h : loadJson st.persistJson = some st := by
    unfold Memory_Store.persistJson
    rw [hobj, decodeSessions_encode]
  exact ⟨h, fun limit sid speaker tf => ⟨st, h, rfl⟩⟩

theorem alookup_overwrite {α β : Type} [DecidableEq α] (l : List (α × β))
    (r : α) (d c : β) (hc : alookup l r = some c) :
    alookup (l.map (fun e => if e.1 = r then (e.1, d) else e)) r = some d := by
  induction l with
  | nil => simp [alookup] at hc
  | cons e rest ih =>
    obtain ⟨k, v⟩ := e
    rw [List.map_cons]
    by_cases he : k = r
    · have h1 : (if ((k, v) : α × β).1 = r then (((k, v) : α × β).1, d) else (k, v)) = (k, d) := by
        simp [he]
      rw [h1]
      show (if k = r then some d else _) = some d
      rw [if_pos he]
    · have h1 : (if ((k, v) : α × β).1 = r then (((k, v) : α × β).1, d) else (k, v)) = (k, v) := by
        simp [he]
      rw [h1]
      show (if k = r then some v
            else alookup (rest.map (fun e => if e.1 = r then (e.1, d) else e)) r) = some d
      rw [if_neg he]
      apply ih
      have h2 : alookup ((k, v) :: rest) r = alookup rest r := by
        show (if k = r then some v else alookup rest r) = _
        rw [if_neg he]
      rw [h2] at hc
      exact hc

/-- C3 counterexample: with one vector registered for ("s", "eden"), a
caller that mutates the dict returned by `get_vector` changes what every
subsequent `get_vector` call observes — the returned dict is the stored
one, not a snapshot. -/
theorem C3_counterexample :
    (let st : Affect_StateH := ⟨[(("s", "eden"), 0)]⟩
     let h : AffectHeap := ⟨1, [(0, ⟨0, 0, 0, 0⟩)]⟩
     let r := (st.get_vector h "s" "eden").1
     let h2 := h.write r ⟨1, 0, 0, 0⟩
     ((st.get_vector h2 "s" "eden").2.2).read ((st.get_vector h2 "s" "eden").1)
       = some ⟨1, 0, 0, 0⟩) := by
  norm_num [Affect_StateH.get_vector, AffectHeap.read, AffectHeap.write, alookup]

/-- C3 amended: for a registered (session_id, persona), `get_vector`
returns exactly the stored reference and leaves the registry and heap
untouched; consequently a caller's write through the returned handle is
seen by every subsequent `get_vector` read of the same key. -/
theorem C3_get_vector_aliases_amended (st : Affect_StateH) (h : AffectHeap)
    (sid persona : String) (r : VecRef) (c : AffectDict)
    (hr : alookup st.states (sid, persona) = some r)
    (hc : h.read r = some c) :
    st.get_vector h sid persona = (r, st, h) ∧
    ∀ d : AffectDict,
      (st.get_vector (h.write r d) sid persona).1 = r ∧
      ((st.get_vector (h.write r d) sid persona).2.2).read
        (st.get_vector (h.write r d) sid persona).1 = some d := by
  have hget : st.get_vector h sid persona = (r, st, h) := by
    unfold Affect_StateH.get_vector
    rw [hr]
  refine ⟨hget, fun d => ?_⟩
  have hget2 : st.get_vector (h.write r d) sid persona = (r, st, h.write r d) := by
    unfold Affect_StateH.get_vector
    rw [hr]
  rw [hget2]
  exact ⟨rfl, alookup_overwrite _ _ _ _ hc⟩

/-- C4: after every mutation in any sequence of operations (construction,
decay, update_from_text with any texts and any scorer outputs) starting from
a fresh vector, all four dimensions are within [-1, 1]. -/
theorem C4_affect_vector_always_in_range (scorer : String → SentScores)
    (t0 : ℚ) (ops : List AffectOp) :
    (applyOps scorer (Affect_Vector.init t0) ops).vector.inRange := by
  apply applyOps_inRange
  unfold Affect_Vector.init AffectDict.inRange
  norm_num
/-- C1 witness: a closed idempotence instance on a text without the
"confess" substring. -/
theorem C1_update_idempotent_amended_witness :
    ((Affect_Vector.init 0).update_from_text zeroScorer 0 "hello").update_from_text
        zeroScorer 0 "hello"
      = (Affect_Vector.init 0).update_from_text zeroScorer 0 "hello" :=
  (C1_update_idempotent_amended zeroScorer 0 (Affect_Vector.init 0) "hello").2 (by decide)

/-- C3 witness: a closed aliasing instance — the registered reference is
returned as-is, and a write through it is observed by the next read. -/
theorem C3_get_vector_aliases_amended_witness :
    Affect_StateH.get_vector ⟨[(("s", "eden"), 0)]⟩ ⟨1, [(0, ⟨0, 0, 0, 0⟩)]⟩ "s" "eden"
      = (0, ⟨[(("s", "eden"), 0)]⟩, ⟨1, [(0, ⟨0, 0, 0, 0⟩)]⟩) ∧
    (Affect_StateH.get_vector ⟨[(("s", "eden"), 0)]⟩
        (AffectHeap.write ⟨1, [(0, ⟨0, 0, 0, 0⟩)]⟩ 0 ⟨1, 0, 0, 0⟩) "s" "eden").1 = 0 ∧
    (AffectHeap.write ⟨1, [(0, ⟨0, 0, 0, 0⟩)]⟩ 0 ⟨1, 0, 0, 0⟩).read 0 = some ⟨1, 0, 0, 0⟩ := by
  have h := C3_get_vector_aliases_amended ⟨[(("s", "eden"), 0)]⟩ ⟨1, [(0, ⟨0, 0, 0, 0⟩)]⟩
    "s" "eden" 0 ⟨0, 0, 0, 0⟩ rfl rfl
  exact ⟨h.1, (h.2 ⟨1, 0, 0, 0⟩).1, (h.2 ⟨1, 0, 0, 0⟩).2⟩

/-- C5 witness: a closed instance of the amended length bound at limit 1. -/
theorem C5_get_recent_amended_witness :
    (Memory_Store.get_recent ⟨[("s", [⟨"t1", "user", "hello", "neutral", []⟩])]⟩
      ((1 : ℕ) : Int) "s" none none).length ≤ 1 :=
  (C5_get_recent_amended ⟨[("s", [⟨"t1", "user", "hello", "neutral", []⟩])]⟩ 1
    (by norm_num) "s" none none).2.1

/-- C9 witness: on the text "sad", the matched trigger weight 0.6 of the
sadness category is dominated by the category's maximum matched weight. -/
theorem C9_lexicon_max_amended_witness :
    (6 : ℚ)/10 ≤ maxMatchWeight (strLower "sad") (agetD EMOTION_KEYWORDS "sadness" []) := by
  have h := (C9_lexicon_max_amended "sad" "sadness").2.1
  apply h ("sad", 6/10)
  · norm_num +decide [agetD, alookup, EMOTION_KEYWORDS]
  · decide
